import Mathlib

/-!
Shallow embedding of the SimpleSchema front end (lexer and expression parser)
translated from `lexer/lexer.go`, `parser/parser.go` and `parser/parse_expr.go`.
The lexer is modelled over the rune stream of a string input (a `List Char`);
token values are byte lists because Go builds them in a `strings.Builder`
(UTF-8 bytes, with `WriteByte` able to emit raw non-UTF-8 bytes).
Go errors built from sentinel values, `fmt.Errorf` wrapping and `errors.Join`
are modelled by a small tree on which `GoErr.is` plays the role of `errors.Is`.
-/

namespace SimpleSchema

/-- The rune value 0: what Go's `ReadRune` yields at end of stream and the
zero value of the `current` field of the lexer. -/
def char0 : Char := Char.ofNat 0

/-- TokenTag classifies a token (lexer/token.go). -/
inductive TokenTag where
  | eof | eol | comment | decInt | binInt | octInt | hexInt | float | string | word | punct
deriving DecidableEq, Repr

/-- Location is a token coordinate (lexer/token.go). -/
structure Location where
  file : String
  row : Nat
  col : Nat
deriving DecidableEq, Repr

/-- Token is a text span with a tag (lexer/token.go); `value` holds the bytes
of the Go string. -/
structure Token where
  tag : TokenTag
  loc : Location
  value : List Nat
deriving DecidableEq, Repr

/-- The sentinel error values of the lexer and parser packages. -/
inductive BaseErr where
  | cannotTokenize
  | invalidCharacter
  | malformedFloatLiteral
  | unterminatedStringLiteral
  | malformedEscapeSequence
  | alreadyUnread
  | unbalancedGroup
  | unexpectedToken
  | unclosedParenthesis
  | unclosedSubscription
deriving DecidableEq, Repr

/-- A Go error value: a sentinel, a plain message, or a wrapping of two
errors (covering `fmt.Errorf` with one or two verbs and `errors.Join`). -/
inductive GoErr where
  | sentinel (k : BaseErr)
  | msg (s : List Nat)
  | wrap (a b : GoErr)
deriving DecidableEq, Repr

/-- `errors.Is`: whether the error tree contains the sentinel `k`. -/
def GoErr.is : GoErr → BaseErr → Bool
  | .sentinel j, k => j = k
  | .msg _, _ => false
  | .wrap a b, k => a.is k || b.is k

/-- Bytes of an ASCII string literal, for comparing token values. -/
def strB (s : String) : List Nat := s.toList.map Char.toNat

/-- UTF-8 encoding of a unicode code point (the byte sequence Go's
`WriteRune`/`EncodeRune` produces for a valid rune). -/
def utf8Enc (n : Nat) : List Nat :=
  if n < 0x80 then [n]
  else if n < 0x800 then
    [0xC0 + n / 64, 0x80 + n % 64]
  else if n < 0x10000 then
    [0xE0 + n / 4096, 0x80 + (n / 64) % 64, 0x80 + n % 64]
  else
    [0xF0 + n / 262144, 0x80 + (n / 4096) % 64, 0x80 + (n / 64) % 64, 0x80 + n % 64]

/-- Go's `strings.Builder.WriteRune` for a rune coming from an input `Char`
(always a valid unicode scalar value, so it is plain UTF-8 encoding). -/
def goWriteRune (value : List Nat) (c : Char) : List Nat := value ++ utf8Enc c.toNat

/-- Go's `rune(v)` conversion of a non-negative `int64`: truncation to a
signed 32-bit integer. -/
def goRuneOfInt64 (n : Nat) : Int :=
  if n % 4294967296 < 2147483648 then (n % 4294967296 : Int)
  else (n % 4294967296 : Int) - 4294967296

/-- Go's `WriteRune` on an arbitrary `rune` (int32): invalid runes (negative,
beyond U+10FFFF, or surrogates) are replaced by U+FFFD before encoding. -/
def goWriteRuneInt (value : List Nat) (r : Int) : List Nat :=
  if r < 0 ∨ 0x10FFFF < r ∨ (0xD800 ≤ r ∧ r ≤ 0xDFFF) then value ++ utf8Enc 0xFFFD
  else value ++ utf8Enc r.toNat

/-- Lexer state (lexer.go `Lexer`); `input` is what the rune reader has not
yet delivered, `current` the last rune read (`char0` before the first read
and at end of stream, as Go's `ReadRune` returns rune 0 with `io.EOF`). -/
structure Lexer where
  startLoc : Location
  endLoc : Location
  current : Char
  consumed : Bool
  input : List Char
  unread : Option Token
  group : Nat
deriving DecidableEq, Repr

/-- `NewFromString`: the initial lexer state over a string content. -/
def mkLexer (file : String) (content : List Char) : Lexer :=
  { startLoc := ⟨file, 0, 0⟩
    endLoc := ⟨file, 0, 0⟩
    current := char0
    consumed := false
    input := content
    unread := none
    group := 0 }

/-- The location bookkeeping Go performs on reading rune `c`:
column advances by one, and a newline resets the column and bumps the row. -/
def bumpLoc (loc : Location) (c : Char) : Location :=
  if c = '\n' then { loc with col := 0, row := loc.row + 1 }
  else { loc with col := loc.col + 1 }

/-- `advanceRune`: pull the next rune off the reader; at end of stream the
current rune becomes 0 and `consumed` is set (io.EOF is swallowed). -/
def advanceRune (l : Lexer) : Lexer :=
  match l.input with
  | [] => { l with current := char0, consumed := true }
  | c :: rest => { l with current := c, input := rest, endLoc := bumpLoc l.endLoc c }

/-- Termination measure for the scanning loops: every loop guard implies the
current rune is not 0, and `advanceRune` then strictly shrinks this measure. -/
def mu (l : Lexer) : Nat := 2 * l.input.length + (if l.current = char0 then 0 else 1)

theorem mu_advance_le (l : Lexer) : mu (advanceRune l) ≤ mu l := by
  unfold mu advanceRune
  cases l.input with
  | nil => simp
  | cons c rest => simp only; split <;> simp <;> omega

theorem mu_advance_lt (l : Lexer) (h : l.current ≠ char0) : mu (advanceRune l) < mu l := by
  unfold mu advanceRune
  cases l.input with
  | nil => simp [h]
  | cons c rest => simp only; split <;> simp [h] <;> omega

/-- `unicode.IsSpace` restricted to the Latin-1 range (the only white space
characters the grammar can meet; all inputs of interest are ASCII). -/
def goIsSpace (c : Char) : Bool :=
  c = ' ' || c = '\t' || c = '\n' || c = Char.ofNat 0x0B || c = Char.ofNat 0x0C ||
  c = '\r' || c = Char.ofNat 0x85 || c = Char.ofNat 0xA0

/-- The startLoc bookkeeping inside `skipSpaces`. -/
def bumpStart (l : Lexer) : Lexer := { l with startLoc := bumpLoc l.startLoc l.current }

theorem mu_bumpStart (l : Lexer) : mu (bumpStart l) = mu l := rfl

/-- `skipSpaces`: spaces and tabs are always skipped; when the group counter
is nonzero every white space rune (newlines included) is skipped. -/
def skipSpaces (l : Lexer) : Lexer :=
  if h : l.current = ' ' ∨ l.current = '\t' ∨ (l.group ≠ 0 ∧ goIsSpace l.current = true) then
    skipSpaces (advanceRune (bumpStart l))
  else l
termination_by mu l
decreasing_by
  have hc : l.current ≠ char0 := by
    rcases h with h | h | h
    · rw [h]; decide
    · rw [h]; decide
    · intro h0
      rw [h0] at h
      exact absurd h.2 (by decide)
  calc mu (advanceRune (bumpStart l)) < mu (bumpStart l) := mu_advance_lt _ hc
    _ = mu l := mu_bumpStart l

/-- `tryReadEOF`: succeeds exactly when the reader has been consumed. -/
def tryReadEOF (l : Lexer) : Except GoErr Token × Lexer :=
  if l.consumed = true then (.ok ⟨.eof, l.startLoc, []⟩, l)
  else (.error (.sentinel .invalidCharacter), l)

/-- The run of `\n` and `;` runes collapsed by `tryReadEOL`. -/
def eolLoop (l : Lexer) : Lexer :=
  if h : l.current = '\n' ∨ l.current = ';' then eolLoop (advanceRune l) else l
termination_by mu l
decreasing_by
  refine mu_advance_lt l ?_
  intro h0
  rw [h0] at h
  rcases h with h | h <;> exact absurd h (by decide)

/-- `tryReadEOL`: outside any group, a run of newlines and semicolons is one
EOL token placed at the start of the run. -/
def tryReadEOL (l : Lexer) : Except GoErr Token × Lexer :=
  if l.group ≠ 0 ∨ (l.current ≠ '\n' ∧ l.current ≠ ';') then
    (.error (.sentinel .invalidCharacter), l)
  else (.ok ⟨.eol, l.startLoc, []⟩, eolLoop l)

/-- The scanning loop of `tryReadComment`: collect runes up to a newline or
the end of input. -/
def commentLoop (l : Lexer) (value : List Nat) : Lexer × List Nat :=
  if h : l.current ≠ '\n' ∧ l.current ≠ char0 then
    commentLoop (advanceRune l) (goWriteRune value l.current)
  else (l, value)
termination_by mu l
decreasing_by exact mu_advance_lt l h.2

/-- `tryReadComment`: a `#` comment runs to the end of the line; the
terminating newline itself is also consumed but not stored. -/
def tryReadComment (l : Lexer) : Except GoErr Token × Lexer :=
  if l.current = '#' then
    let start := l.startLoc
    let r := commentLoop l []
    let l2 := if r.1.current = '\n' then advanceRune r.1 else r.1
    (.ok ⟨.comment, start, r.2⟩, l2)
  else (.error (.sentinel .invalidCharacter), l)

/-- `isDigitOfBase` (lexer.go); tags other than the five numeric ones are
unreachable in the source (it panics there). -/
def isDigitOfBase (c : Char) (tag : TokenTag) : Bool :=
  match tag with
  | .binInt => c = '0' || c = '1'
  | .octInt => decide ('0' ≤ c) && decide (c ≤ '7')
  | .decInt | .float => decide ('0' ≤ c) && decide (c ≤ '9')
  | .hexInt =>
    (decide ('0' ≤ c) && decide (c ≤ '9')) ||
    (decide ('a' ≤ c) && decide (c ≤ 'f')) ||
    (decide ('A' ≤ c) && decide (c ≤ 'F'))
  | _ => false

theorem isDigit_char0 (tag : TokenTag) : isDigitOfBase char0 tag = false := by
  cases tag <;> decide

/-- The inner digit-collecting loop of `tryReadNumber`. -/
def digitsLoop (tag : TokenTag) (l : Lexer) (value : List Nat) : Lexer × List Nat :=
  if h : isDigitOfBase l.current tag = true then
    digitsLoop tag (advanceRune l) (goWriteRune value l.current)
  else (l, value)
termination_by mu l
decreasing_by
  refine mu_advance_lt l ?_
  intro h0
  rw [h0, isDigit_char0] at h
  exact absurd h (by decide)

theorem mu_digitsLoop_le (tag : TokenTag) (l : Lexer) (value : List Nat) :
    mu (digitsLoop tag l value).1 ≤ mu l := by
  induction l, value using digitsLoop.induct tag with
  | case1 l value h ih =>
    rw [digitsLoop, dif_pos h]
    exact le_trans ih (mu_advance_le l)
  | case2 l value h =>
    rw [digitsLoop, dif_neg h]

/-- The body of `tryReadNumber`'s outer `for` loop: consume digits, then
handle a decimal point or a (lowercase) exponent marker, or stop. -/
def numScan (tag : TokenTag) (haveExp : Bool) (value : List Nat) (l : Lexer) :
    Except GoErr (TokenTag × List Nat) × Lexer :=
  let r := digitsLoop tag l value
  if h1 : r.1.current = '.' then
    if tag = .decInt then numScan .float haveExp (r.2 ++ [46]) (advanceRune r.1)
    else (.error (.sentinel .malformedFloatLiteral), r.1)
  else if h2 : r.1.current = 'e' ∧ haveExp = false ∧ (tag = .decInt ∨ tag = .float) then
    let v2 := r.2 ++ [101]
    let l2 := advanceRune r.1
    if l2.current = '-' ∨ l2.current = '+' then
      let v3 := goWriteRune v2 l2.current
      let l3 := advanceRune l2
      if isDigitOfBase l3.current .float = true then numScan tag true v3 l3
      else (.error (.sentinel .malformedFloatLiteral), l3)
    else
      if isDigitOfBase l2.current .float = true then numScan tag true v2 l2
      else (.error (.sentinel .malformedFloatLiteral), l2)
  else (.ok (tag, r.2), r.1)
termination_by mu l
decreasing_by
  · have hd : mu (digitsLoop tag l value).1 ≤ mu l := mu_digitsLoop_le tag l value
    have : (digitsLoop tag l value).1.current ≠ char0 := by rw [h1]; decide
    exact lt_of_lt_of_le (mu_advance_lt _ this) hd
  · have hd : mu (digitsLoop tag l value).1 ≤ mu l := mu_digitsLoop_le tag l value
    have hne : (digitsLoop tag l value).1.current ≠ char0 := by rw [h2.1]; decide
    calc mu (advanceRune (advanceRune (digitsLoop tag l value).1))
        ≤ mu (advanceRune (digitsLoop tag l value).1) := mu_advance_le _
      _ < mu (digitsLoop tag l value).1 := mu_advance_lt _ hne
      _ ≤ mu l := hd
  · have hd : mu (digitsLoop tag l value).1 ≤ mu l := mu_digitsLoop_le tag l value
    have hne : (digitsLoop tag l value).1.current ≠ char0 := by rw [h2.1]; decide
    exact lt_of_lt_of_le (mu_advance_lt _ hne) hd

/-- The leading-zero radix-prefix selection of `tryReadNumber`: the prefix
rune is consumed and not stored; a bare leading `0` stays in the value. -/
def numPrefix (l : Lexer) : TokenTag × List Nat × Lexer :=
  if l.current = '0' then
    let l1 := advanceRune l
    if l1.current = 'b' then (.binInt, [], advanceRune l1)
    else if l1.current = 'o' then (.octInt, [], advanceRune l1)
    else if l1.current = 'x' then (.hexInt, [], advanceRune l1)
    else if l1.current = '.' then (.float, strB "0.", advanceRune l1)
    else (.decInt, [48], l1)
  else (.decInt, [], l)

/-- `tryReadNumber`: radix prefix selection then the scanning loop. -/
def tryReadNumber (l : Lexer) : Except GoErr Token × Lexer :=
  if isDigitOfBase l.current .decInt = true then
    match numScan (numPrefix l).1 false (numPrefix l).2.1 (numPrefix l).2.2 with
    | (.ok (tag, v), l2) => (.ok ⟨tag, l.startLoc, v⟩, l2)
    | (.error e, l2) => (.error e, l2)
  else (.error (.sentinel .invalidCharacter), l)

/-- Numeric value of one hexadecimal digit (as `strconv.ParseInt` uses);
48, 57, 97, 102, 65 and 70 are the code points of 0, 9, a, f, A and F. -/
def hexVal (c : Char) : Nat :=
  if 48 ≤ c.toNat ∧ c.toNat ≤ 57 then c.toNat - 48
  else if 97 ≤ c.toNat ∧ c.toNat ≤ 102 then c.toNat - 87
  else if 65 ≤ c.toNat ∧ c.toNat ≤ 70 then c.toNat - 55
  else 0

/-- `strconv.ParseInt(s, 16, 64)` on a string of valid hex digits. -/
def parseHexNat (ds : List Char) : Nat := ds.foldl (fun a c => a * 16 + hexVal c) 0

/-- The `for range takeNext` loop of `decodeEscapeSequence`: read exactly
`n` hex digits, failing on any non-hex rune. -/
def hexRun : Nat → Lexer → List Char → Except GoErr (List Char) × Lexer
  | 0, l, ds => (.ok ds, l)
  | n + 1, l, ds =>
    let l1 := advanceRune l
    if isDigitOfBase l1.current .hexInt = true then hexRun n l1 (ds ++ [l1.current])
    else (.error (.sentinel .malformedEscapeSequence), l1)

theorem mu_hexRun_le (n : Nat) (l : Lexer) (ds : List Char) :
    mu (hexRun n l ds).2 ≤ mu l := by
  induction n generalizing l ds with
  | zero => exact le_refl _
  | succ n ih =>
    rw [hexRun]
    split
    · exact le_trans (ih _ _) (mu_advance_le l)
    · exact mu_advance_le l

/-- The `x`/`u`/`U` arm of `decodeEscapeSequence`: read the fixed number of
hex digits, then append one raw byte (for `x`) or one encoded rune. -/
def decodeHexEscape (takeNext : Nat) (l1 : Lexer) (value : List Nat) :
    Except GoErr (List Nat) × Lexer :=
  match hexRun takeNext l1 [] with
  | (.error e, l2) => (.error e, l2)
  | (.ok ds, l2) =>
    let charValue := parseHexNat ds
    if takeNext = 2 then (.ok (value ++ [charValue % 256]), advanceRune l2)
    else (.ok (goWriteRuneInt value (goRuneOfInt64 charValue)), advanceRune l2)

theorem mu_decodeHexEscape_le (n : Nat) (l : Lexer) (value : List Nat) :
    mu (decodeHexEscape n l value).2 ≤ mu l := by
  unfold decodeHexEscape
  split
  next e l2 heq =>
    have h3 := mu_hexRun_le n l []
    rw [heq] at h3
    exact h3
  next ds l2 heq =>
    have h3 := mu_hexRun_le n l []
    rw [heq] at h3
    split <;> exact le_trans (mu_advance_le _) h3

/-- The single-character arms of `decodeEscapeSequence`'s switch: the byte
that `WriteRune` appends for each of `a b f n r t v \ ' "`. -/
def simpleEscape (c : Char) : Option Nat :=
  if c = 'a' then some 7
  else if c = 'b' then some 8
  else if c = 'f' then some 12
  else if c = 'n' then some 10
  else if c = 'r' then some 13
  else if c = 't' then some 9
  else if c = 'v' then some 11
  else if c = '\\' then some 92
  else if c = '\'' then some 39
  else if c = '"' then some 34
  else none

/-- The number of hex digits the `x`/`u`/`U` escapes take (0 marking an
unrecognized escape character). -/
def escTakeNext (c : Char) : Nat :=
  if c = 'x' then 2
  else if c = 'u' then 4
  else if c = 'U' then 8
  else 0

/-- `decodeEscapeSequence`: the cursor sits on the backslash; afterwards it
sits just past the escape. -/
def decodeEscapeSequence (l : Lexer) (value : List Nat) :
    Except GoErr (List Nat) × Lexer :=
  let l1 := advanceRune l
  match simpleEscape l1.current with
  | some b => (.ok (value ++ [b]), advanceRune l1)
  | none =>
    if escTakeNext l1.current = 0 then (.error (.sentinel .malformedEscapeSequence), l1)
    else decodeHexEscape (escTakeNext l1.current) l1 value

theorem mu_decodeEscape_le (l : Lexer) (value : List Nat) :
    mu (decodeEscapeSequence l value).2 ≤ mu l := by
  have h1 : mu (advanceRune l) ≤ mu l := mu_advance_le l
  simp only [decodeEscapeSequence]
  split
  · exact le_trans (mu_advance_le _) h1
  · split
    · exact h1
    · exact le_trans (mu_decodeHexEscape_le _ _ _) h1

/-- The scanning loop of `tryReadString`; note that after an escape the rune
just past it is examined (and written unless it terminates the literal). -/
def stringLoop (l : Lexer) (value : List Nat) :
    Except GoErr Unit × Lexer × List Nat :=
  if h : l.current ≠ '\n' ∧ l.current ≠ char0 then
    if (advanceRune l).current = '\\' then
      match (decodeEscapeSequence (advanceRune l) value).1 with
      | .error e => (.error e, (decodeEscapeSequence (advanceRune l) value).2, value)
      | .ok v2 =>
        if (decodeEscapeSequence (advanceRune l) value).2.current = '"' then
          (.ok (), (decodeEscapeSequence (advanceRune l) value).2, v2)
        else
          stringLoop (decodeEscapeSequence (advanceRune l) value).2
            (goWriteRune v2 (decodeEscapeSequence (advanceRune l) value).2.current)
    else
      if (advanceRune l).current = '"' then (.ok (), advanceRune l, value)
      else stringLoop (advanceRune l) (goWriteRune value (advanceRune l).current)
  else (.ok (), l, value)
termination_by mu l
decreasing_by
  · exact lt_of_le_of_lt (mu_decodeEscape_le _ _) (mu_advance_lt l h.2)
  · exact mu_advance_lt l h.2

/-- `tryReadString`: everything between the quotes with escapes decoded; a
newline or the end of input before the closing quote is an unterminated
string literal. -/
def tryReadString (l : Lexer) : Except GoErr Token × Lexer :=
  if l.current = '"' then
    let start := l.startLoc
    match stringLoop l [] with
    | (.error e, l2, _) => (.error e, l2)
    | (.ok _, l2, v2) =>
      if l2.current = '"' then (.ok ⟨.string, start, v2⟩, advanceRune l2)
      else (.error (.sentinel .unterminatedStringLiteral), l2)
  else (.error (.sentinel .invalidCharacter), l)

/-- `unicode.IsLetter` restricted to ASCII (all identifiers of interest are
ASCII). -/
def goIsLetter (c : Char) : Bool := c.isAlpha

/-- `unicode.IsDigit` restricted to ASCII. -/
def goIsDigit (c : Char) : Bool := c.isDigit

/-- The identifier-collecting loop of `tryReadWord`. -/
def wordLoop (l : Lexer) (value : List Nat) : Lexer × List Nat :=
  if h : (goIsLetter l.current || goIsDigit l.current || l.current = '_') = true then
    wordLoop (advanceRune l) (goWriteRune value l.current)
  else (l, value)
termination_by mu l
decreasing_by
  refine mu_advance_lt l ?_
  intro h0
  rw [h0] at h
  exact absurd h (by decide)

/-- `tryReadWord`: a letter or `_` then letters, digits and `_`. -/
def tryReadWord (l : Lexer) : Except GoErr Token × Lexer :=
  if goIsLetter l.current = true ∨ l.current = '_' then
    let start := l.startLoc
    let r := wordLoop l []
    (.ok ⟨.word, start, r.2⟩,
      { r.1 with endLoc := { r.1.endLoc with col := start.col + r.2.length } })
  else (.error (.sentinel .invalidCharacter), l)

/-- The `punctuations` table (lexer.go), as byte strings. -/
def punctuations : List (List Nat) :=
  [strB "(", strB ")", strB "[", strB "]", strB "\x7b", strB "\x7d", strB ",",
   strB ".", strB ":", strB "=", strB "+", strB "-", strB "*", strB "/",
   strB "%", strB ">", strB "<", strB "^", strB "~", strB "!", strB "|",
   strB "&", strB ":=", strB "==", strB "!=", strB ">=", strB "<=",
   strB ">>", strB "<<", strB "&&", strB "||", strB "=>", strB "->",
   strB "[[", strB "]]"]

theorem punct_no_zero : ∀ p ∈ punctuations, p.getLast? ≠ some 0 := by decide

/-- The greedy longest-match loop of `tryReadPunct`. -/
def punctLoop (l : Lexer) (value : List Nat) : Lexer × List Nat :=
  if h : punctuations.contains (value ++ utf8Enc l.current.toNat) = true then
    punctLoop (advanceRune l) (value ++ utf8Enc l.current.toNat)
  else (l, value)
termination_by mu l
decreasing_by
  refine mu_advance_lt l ?_
  intro h0
  rw [h0] at h
  have hmem : (value ++ [0]) ∈ punctuations := by
    have h0 : utf8Enc char0.toNat = [0] := by decide
    rw [h0] at h
    simpa using h
  exact punct_no_zero _ hmem (List.getLast?_concat _)

/-- `tryReadPunct`: greedy longest match against the punctuation table. -/
def tryReadPunct (l : Lexer) : Except GoErr Token × Lexer :=
  let start := l.startLoc
  let r := punctLoop l []
  if r.2 = [] then (.error (.sentinel .invalidCharacter), r.1)
  else
    (.ok ⟨.punct, start, r.2⟩,
      { r.1 with endLoc := { r.1.endLoc with col := start.col + r.2.length } })

/-- The classifier chain of `Read`, in source order; a classifier failing
with the invalid-character sentinel lets the next one try, any other error
is returned as is. -/
def readClassify (l : Lexer) : Except GoErr Token × Lexer :=
  match tryReadEOF l with
  | (.ok t, l1) => (.ok t, l1)
  | (.error e, l1) =>
    if e.is .invalidCharacter = false then (.error e, l1) else
    match tryReadEOL l1 with
    | (.ok t, l2) => (.ok t, l2)
    | (.error e, l2) =>
      if e.is .invalidCharacter = false then (.error e, l2) else
      match tryReadComment l2 with
      | (.ok t, l3) => (.ok t, l3)
      | (.error e, l3) =>
        if e.is .invalidCharacter = false then (.error e, l3) else
        match tryReadNumber l3 with
        | (.ok t, l4) => (.ok t, l4)
        | (.error e, l4) =>
          if e.is .invalidCharacter = false then (.error e, l4) else
          match tryReadString l4 with
          | (.ok t, l5) => (.ok t, l5)
          | (.error e, l5) =>
            if e.is .invalidCharacter = false then (.error e, l5) else
            match tryReadWord l5 with
            | (.ok t, l6) => (.ok t, l6)
            | (.error e, l6) =>
              if e.is .invalidCharacter = false then (.error e, l6) else
              match tryReadPunct l6 with
              | (.ok t, l7) => (.ok t, l7)
              | (.error e, l7) =>
                if e.is .invalidCharacter = false then (.error e, l7) else
                (.error (.wrap (.sentinel .cannotTokenize)
                  (.wrap (.sentinel .invalidCharacter)
                    (.msg (utf8Enc l7.current.toNat)))), l7)

/-- `Read`: deliver a pushed-back token first; otherwise load the first rune
if needed, skip spaces, and run the classifiers; the deferred assignment
copies the end location into the start location on every such path. -/
def Lexer.read (l : Lexer) : Except GoErr Token × Lexer :=
  match l.unread with
  | some t => (.ok t, { l with unread := none })
  | none =>
    let l1 := if l.current = char0 ∧ l.consumed = false then advanceRune l else l
    let l2 := skipSpaces l1
    let r := readClassify l2
    (r.1, { r.2 with startLoc := r.2.endLoc })

/-- `Unread`: park one token for redelivery; fails if one is already parked
(and then leaves the state untouched). -/
def Lexer.Unread (l : Lexer) (token : Token) : Option GoErr × Lexer :=
  match l.unread with
  | some _ => (some (.sentinel .alreadyUnread), l)
  | none => (none, { l with unread := some token })

/-- `PushGroup`: enter a bracketed context in which newlines are blank. -/
def Lexer.PushGroup (l : Lexer) : Lexer := { l with group := l.group + 1 }

/-- `PopGroup`: leave a bracketed context; more pops than pushes fail. -/
def Lexer.PopGroup (l : Lexer) : Option GoErr × Lexer :=
  if l.group = 0 then (some (.sentinel .unbalancedGroup), l)
  else (none, { l with group := l.group - 1 })

/-! ### Parser (parser/ast.go, parser/parser.go, parser/parse_expr.go) -/

mutual

/-- Expression nodes (parser/ast.go, as used by parse_expr.go). -/
inductive Expr where
  | ident (token : Token)
  | literal (token : Token)
  | structDef (block : Block)
  | unionDef (block : Block)
  | enumDef (block : Block)
  | prototypeDef (params : List Field) (returnType : Expr)
  | call (callee : Expr) (args : List Expr)
  | index (base : Expr) (idx : Expr)
  | unaryOp (operator : Token) (operand : Expr)
  | binaryOp (operator : Token) (left : Expr) (right : Expr)

/-- A brace-delimited sequence of declarations. -/
inductive Block where
  | mk (decls : List Decl)

/-- Declarations occurring inside a block. -/
inductive Decl where
  | field (f : Field)
  | optionBlock (block : Block)

/-- A field: name, optional type, optional default value, optional options
block (the prototype parameter form carries only a type). -/
inductive Field where
  | mk (name : Option Expr) (fieldType : Option Expr) (value : Option Expr)
      (options : Option Block)

end

/-- Parser state: just the lexer handle (parser.go `Parser`). -/
structure Parser where
  lex : Lexer

/-- A `lexer.Token{Tag: ...}` match pattern (zero location and value). -/
def tokPat (tag : TokenTag) : Token := ⟨tag, ⟨"", 0, 0⟩, []⟩

/-- A `lexer.Token{Tag: ..., Value: ...}` match pattern. -/
def tokPatV (tag : TokenTag) (v : List Nat) : Token := ⟨tag, ⟨"", 0, 0⟩, v⟩

/-- `expect`: read one token; if it matches a candidate on tag (and value,
when the candidate specifies one) consume it, otherwise push it back and
fail with an unexpected-token error. -/
def expect (p : Parser) (anyOf : List Token) : Except GoErr Token × Parser :=
  match Lexer.read p.lex with
  | (.error e, lex1) => (.error e, ⟨lex1⟩)
  | (.ok token, lex1) =>
    if anyOf.any (fun m => m.tag = token.tag ∧ (m.value = [] ∨ m.value = token.value)) then
      (.ok token, ⟨lex1⟩)
    else
      match Lexer.Unread lex1 token with
      | (some e, lex2) => (.error e, ⟨lex2⟩)
      | (none, lex2) => (.error (.wrap (.sentinel .unexpectedToken) (.msg token.value)), ⟨lex2⟩)

/-- `ParseIdent`: one word token. -/
def ParseIdent (p : Parser) : Except GoErr Expr × Parser :=
  match expect p [tokPat .word] with
  | (.error e, p1) => (.error e, p1)
  | (.ok token, p1) => (.ok (.ident token), p1)

/-- `ParseLiteral`: one numeric, string or float token. -/
def ParseLiteral (p : Parser) : Except GoErr Expr × Parser :=
  match expect p [tokPat .binInt, tokPat .decInt, tokPat .octInt, tokPat .hexInt,
      tokPat .string, tokPat .float] with
  | (.error e, p1) => (.error e, p1)
  | (.ok token, p1) => (.ok (.literal token), p1)

/-- The `punctPrec` table: operator spellings by precedence level. -/
def punctPrec (prec : Nat) : List (List Nat) :=
  match prec with
  | 9 => [strB "||"]
  | 8 => [strB "&&"]
  | 7 => [strB "|"]
  | 6 => [strB "^"]
  | 5 => [strB "&"]
  | 4 => [strB "==", strB "!="]
  | 3 => [strB "<", strB ">", strB "<=", strB ">="]
  | 2 => [strB "+", strB "-"]
  | 1 => [strB "*", strB "/", strB "%"]
  | _ => []

/-- `maxPrec` (parse_expr.go). -/
def maxPrec : Nat := 9

/-- The error result used when the recursion fuel runs out; never reached
for the fuel amounts used in the theorems below. -/
def fuelErr : GoErr := .msg (strB "out of fuel")

mutual

/-- `parseField`: `Lookup (: Expr)? (= Expr)? (options Block)? EOL`. -/
def parseField (fuel : Nat) (p : Parser) : Except GoErr Decl × Parser :=
  match fuel with
  | 0 => (.error fuelErr, p)
  | f + 1 =>
    match ParseLookup f p with
    | (.error e, p1) => (.error e, p1)
    | (.ok name, p1) =>
      match expect p1 [tokPatV .punct (strB ":")] with
      | (.ok _, p2) =>
        match ParseExpr f p2 with
        | (.error e, p3) => (.error e, p3)
        | (.ok ty, p3) => parseFieldValue f (some name) (some ty) p3
      | (.error _, p2) => parseFieldValue f (some name) none p2

/-- The `= value` stage of `parseField`. -/
def parseFieldValue (fuel : Nat) (name fieldType : Option Expr) (p : Parser) :
    Except GoErr Decl × Parser :=
  match fuel with
  | 0 => (.error fuelErr, p)
  | f + 1 =>
    match expect p [tokPatV .punct (strB "=")] with
    | (.ok _, p1) =>
      match ParseExpr f p1 with
      | (.error e, p2) => (.error e, p2)
      | (.ok v, p2) => parseFieldOptions f name fieldType (some v) p2
    | (.error _, p1) => parseFieldOptions f name fieldType none p1

/-- The `options` stage of `parseField`. -/
def parseFieldOptions (fuel : Nat) (name fieldType value : Option Expr) (p : Parser) :
    Except GoErr Decl × Parser :=
  match fuel with
  | 0 => (.error fuelErr, p)
  | f + 1 =>
    match expect p [tokPatV .word (strB "options")] with
    | (.ok _, p1) =>
      match parseBlock f p1 with
      | (.error e, p2) => (.error e, p2)
      | (.ok blk, p2) => parseFieldEOL f name fieldType value (some blk) p2
    | (.error _, p1) => parseFieldEOL f name fieldType value none p1

/-- The terminating EOL of `parseField`. -/
def parseFieldEOL (fuel : Nat) (name fieldType value : Option Expr)
    (options : Option Block) (p : Parser) : Except GoErr Decl × Parser :=
  match fuel with
  | 0 => (.error fuelErr, p)
  | _ + 1 =>
    match expect p [tokPat .eol] with
    | (.ok _, p1) => (.ok (.field ⟨name, fieldType, value, options⟩), p1)
    | (.error e, p1) => (.error e, p1)

/-- `parseBlock`: `{ EOL? (Field | options Block)* }`. -/
def parseBlock (fuel : Nat) (p : Parser) : Except GoErr Block × Parser :=
  match fuel with
  | 0 => (.error fuelErr, p)
  | f + 1 =>
    match expect p [tokPatV .punct (strB "\x7b")] with
    | (.error e, p1) => (.error e, p1)
    | (.ok _, p1) =>
      let p2 := (expect p1 [tokPat .eol]).2
      match blockLoop f [] p2 with
      | (.error e, p3) => (.error e, p3)
      | (.ok decls, p3) =>
        match expect p3 [tokPatV .punct (strB "\x7d")] with
        | (.ok _, p4) => (.ok (.mk decls), p4)
        | (.error e, p4) => (.error e, p4)

/-- The collection loop of `parseBlock`. -/
def blockLoop (fuel : Nat) (decls : List Decl) (p : Parser) :
    Except GoErr (List Decl) × Parser :=
  match fuel with
  | 0 => (.error fuelErr, p)
  | f + 1 =>
    match parseField f p with
    | (.ok d, p1) => blockLoop f (decls ++ [d]) p1
    | (.error _, p1) =>
      match expect p1 [tokPatV .word (strB "options")] with
      | (.ok _, p2) =>
        match parseBlock f p2 with
        | (.error e, p3) => (.error e, p3)
        | (.ok blk, p3) => blockLoop f (decls ++ [.optionBlock blk]) p3
      | (.error _, p2) => (.ok decls, p2)

/-- `ParseStructDef`: `struct Block`. -/
def ParseStructDef (fuel : Nat) (p : Parser) : Except GoErr Expr × Parser :=
  match fuel with
  | 0 => (.error fuelErr, p)
  | f + 1 =>
    match expect p [tokPatV .word (strB "struct")] with
    | (.error e, p1) => (.error e, p1)
    | (.ok _, p1) =>
      match parseBlock f p1 with
      | (.error e, p2) => (.error e, p2)
      | (.ok blk, p2) => (.ok (.structDef blk), p2)

/-- `ParseUnionDef`: `union Block`. -/
def ParseUnionDef (fuel : Nat) (p : Parser) : Except GoErr Expr × Parser :=
  match fuel with
  | 0 => (.error fuelErr, p)
  | f + 1 =>
    match expect p [tokPatV .word (strB "union")] with
    | (.error e, p1) => (.error e, p1)
    | (.ok _, p1) =>
      match parseBlock f p1 with
      | (.error e, p2) => (.error e, p2)
      | (.ok blk, p2) => (.ok (.unionDef blk), p2)

/-- `ParseEnumDef`: `enum Block`. -/
def ParseEnumDef (fuel : Nat) (p : Parser) : Except GoErr Expr × Parser :=
  match fuel with
  | 0 => (.error fuelErr, p)
  | f + 1 =>
    match expect p [tokPatV .word (strB "enum")] with
    | (.error e, p1) => (.error e, p1)
    | (.ok _, p1) =>
      match parseBlock f p1 with
      | (.error e, p2) => (.error e, p2)
      | (.ok blk, p2) => (.ok (.enumDef blk), p2)

/-- The parameter loop of `ParsePrototypeDef`. -/
def protoLoop (fuel : Nat) (params : List Field) (p : Parser) :
    Except GoErr (List Field) × Parser :=
  match fuel with
  | 0 => (.error fuelErr, p)
  | f + 1 =>
    match ParseIdent p with
    | (.error _, p1) => (.ok params, p1)
    | (.ok param, p1) =>
      let params1 := params ++ [Field.mk none (some param) none none]
      match expect p1 [tokPatV .punct (strB ",")] with
      | (.error _, p2) => (.ok params1, p2)
      | (.ok _, p2) => protoLoop f params1 p2

/-- `ParsePrototypeDef`: `proc ( idents ) -> Expr`. -/
def ParsePrototypeDef (fuel : Nat) (p : Parser) : Except GoErr Expr × Parser :=
  match fuel with
  | 0 => (.error fuelErr, p)
  | f + 1 =>
    match expect p [tokPatV .word (strB "proc")] with
    | (.error e, p1) => (.error e, p1)
    | (.ok _, p1) =>
      match expect p1 [tokPatV .punct (strB "(")] with
      | (.error e, p2) => (.error e, p2)
      | (.ok _, p2) =>
        match protoLoop f [] p2 with
        | (.error e, p3) => (.error e, p3)
        | (.ok params, p3) =>
          match expect p3 [tokPatV .punct (strB ")")] with
          | (.error e, p4) => (.error e, p4)
          | (.ok _, p4) =>
            match expect p4 [tokPatV .punct (strB "->")] with
            | (.error e, p5) => (.error e, p5)
            | (.ok _, p5) =>
              match ParseExpr f p5 with
              | (.error e, p6) => (.error e, p6)
              | (.ok ret, p6) => (.ok (.prototypeDef params ret), p6)

/-- `ParseGroup`: `( Expr )`. -/
def ParseGroup (fuel : Nat) (p : Parser) : Except GoErr Expr × Parser :=
  match fuel with
  | 0 => (.error fuelErr, p)
  | f + 1 =>
    match expect p [tokPatV .punct (strB "(")] with
    | (.error e, p1) => (.error e, p1)
    | (.ok _, p1) =>
      match ParseExpr f p1 with
      | (.error e, p2) => (.error e, p2)
      | (.ok expr, p2) =>
        match expect p2 [tokPatV .punct (strB ")")] with
        | (.ok _, p3) => (.ok expr, p3)
        | (.error e, p3) => (.error e, p3)

/-- `ParseAtom`: the ordered choice over group, struct, union, enum,
prototype, literal, identifier. -/
def ParseAtom (fuel : Nat) (p : Parser) : Except GoErr Expr × Parser :=
  match fuel with
  | 0 => (.error fuelErr, p)
  | f + 1 =>
    match ParseGroup f p with
    | (.ok a, p1) => (.ok a, p1)
    | (.error _, p1) =>
      match ParseStructDef f p1 with
      | (.ok a, p2) => (.ok a, p2)
      | (.error _, p2) =>
        match ParseUnionDef f p2 with
        | (.ok a, p3) => (.ok a, p3)
        | (.error _, p3) =>
          match ParseEnumDef f p3 with
          | (.ok a, p4) => (.ok a, p4)
          | (.error _, p4) =>
            match ParsePrototypeDef f p4 with
            | (.ok a, p5) => (.ok a, p5)
            | (.error _, p5) =>
              match ParseLiteral p5 with
              | (.ok a, p6) => (.ok a, p6)
              | (.error _, p6) =>
                match ParseIdent p6 with
                | (.ok a, p7) => (.ok a, p7)
                | (.error _, p7) =>
                  (.error (.wrap (.sentinel .unexpectedToken)
                    (.msg (strB " was expecting atom"))), p7)

/-- The `. Atom` loop of `ParseLookup`. -/
def lookupLoop (fuel : Nat) (expr : Expr) (p : Parser) : Except GoErr Expr × Parser :=
  match fuel with
  | 0 => (.error fuelErr, p)
  | f + 1 =>
    match expect p [tokPatV .punct (strB ".")] with
    | (.error _, p1) => (.ok expr, p1)
    | (.ok token, p1) =>
      match ParseAtom f p1 with
      | (.error e, p2) => (.error e, p2)
      | (.ok right, p2) => lookupLoop f (.binaryOp token expr right) p2

/-- `ParseLookup`: `Atom (. Atom)*`, left-associated. -/
def ParseLookup (fuel : Nat) (p : Parser) : Except GoErr Expr × Parser :=
  match fuel with
  | 0 => (.error fuelErr, p)
  | f + 1 =>
    match ParseAtom f p with
    | (.error e, p1) => (.error e, p1)
    | (.ok expr, p1) => lookupLoop f expr p1

/-- The argument loop of `parseArgs`. -/
def argsLoop (fuel : Nat) (args : List Expr) (p : Parser) :
    Except GoErr (List Expr) × Parser :=
  match fuel with
  | 0 => (.error fuelErr, p)
  | f + 1 =>
    match ParseExpr f p with
    | (.error _, p1) => (.ok args, p1)
    | (.ok e, p1) =>
      let args1 := args ++ [e]
      match expect p1 [tokPatV .punct (strB ",")] with
      | (.error _, p2) => (.ok args1, p2)
      | (.ok _, p2) => argsLoop f args1 p2

/-- `parseArgs`: `( Expr (, Expr)* )`; a missing closing parenthesis wraps
the unexpected-token error with the unclosed-parenthesis sentinel. -/
def parseArgs (fuel : Nat) (p : Parser) : Except GoErr (List Expr) × Parser :=
  match fuel with
  | 0 => (.error fuelErr, p)
  | f + 1 =>
    match expect p [tokPatV .punct (strB "(")] with
    | (.error e, p1) => (.error e, p1)
    | (.ok _, p1) =>
      match argsLoop f [] p1 with
      | (.error e, p2) => (.error e, p2)
      | (.ok args, p2) =>
        match expect p2 [tokPatV .punct (strB ")")] with
        | (.ok _, p3) => (.ok args, p3)
        | (.error e, p3) => (.error (.wrap e (.sentinel .unclosedParenthesis)), p3)

/-- The call/index loop of `ParseSubscript`. -/
def subscriptLoop (fuel : Nat) (expr : Expr) (p : Parser) : Except GoErr Expr × Parser :=
  match fuel with
  | 0 => (.error fuelErr, p)
  | f + 1 =>
    match parseArgs f p with
    | (.ok args, p1) => subscriptLoop f (.call expr args) p1
    | (.error e, p1) =>
      if e.is .unclosedParenthesis = true then (.error e, p1)
      else
        match expect p1 [tokPatV .punct (strB "[")] with
        | (.ok _, p2) =>
          match ParseExpr f p2 with
          | (.error e2, p3) => (.error e2, p3)
          | (.ok idx, p3) =>
            match expect p3 [tokPatV .punct (strB "]")] with
            | (.ok _, p4) => subscriptLoop f (.index expr idx) p4
            | (.error e2, p4) => (.error (.wrap e2 (.sentinel .unclosedSubscription)), p4)
        | (.error _, p2) => (.ok expr, p2)

/-- `ParseSubscript`: `Lookup ( ( args ) | [ Expr ] )*`. -/
def ParseSubscript (fuel : Nat) (p : Parser) : Except GoErr Expr × Parser :=
  match fuel with
  | 0 => (.error fuelErr, p)
  | f + 1 =>
    match ParseLookup f p with
    | (.error e, p1) => (.error e, p1)
    | (.ok expr, p1) => subscriptLoop f expr p1

/-- `ParseUnary`: an optional prefix operator from `+ - ! ~ * &` applied to
a `ParseUnary`, else `ParseSubscript`. -/
def ParseUnary (fuel : Nat) (p : Parser) : Except GoErr Expr × Parser :=
  match fuel with
  | 0 => (.error fuelErr, p)
  | f + 1 =>
    match expect p [tokPatV .punct (strB "+"), tokPatV .punct (strB "-"),
        tokPatV .punct (strB "!"), tokPatV .punct (strB "~"),
        tokPatV .punct (strB "*"), tokPatV .punct (strB "&")] with
    | (.ok operator, p1) =>
      match ParseUnary f p1 with
      | (.error e, p2) => (.error e, p2)
      | (.ok expr, p2) => (.ok (.unaryOp operator expr), p2)
    | (.error _, p1) => ParseSubscript f p1

/-- One pass over the operators of a level in table order: the first match
parses a right operand one level down and folds left-associatively. -/
def binTryOps (fuel : Nat) (prec : Nat) (ops : List (List Nat)) (expr : Expr)
    (p : Parser) : Except GoErr (Option Expr) × Parser :=
  match fuel with
  | 0 => (.error fuelErr, p)
  | f + 1 =>
    match ops with
    | [] => (.ok none, p)
    | op :: rest =>
      match expect p [tokPatV .punct op] with
      | (.error e, p1) =>
        if e.is .unexpectedToken = false then (.error e, p1)
        else binTryOps f prec rest expr p1
      | (.ok token, p1) =>
        match parseBinaryPrec f (prec - 1) p1 with
        | (.error e, p2) => (.error e, p2)
        | (.ok right, p2) => (.ok (some (.binaryOp token expr right)), p2)

/-- The outer operator loop at one precedence level. -/
def binLoop (fuel : Nat) (prec : Nat) (expr : Expr) (p : Parser) :
    Except GoErr Expr × Parser :=
  match fuel with
  | 0 => (.error fuelErr, p)
  | f + 1 =>
    match binTryOps f prec (punctPrec prec) expr p with
    | (.error e, p1) => (.error e, p1)
    | (.ok none, p1) => (.ok expr, p1)
    | (.ok (some e2), p1) => binLoop f prec e2 p1

/-- `parseBinaryPrec`: precedence climbing from the given level down to
`ParseUnary` at level 0. -/
def parseBinaryPrec (fuel : Nat) (prec : Nat) (p : Parser) : Except GoErr Expr × Parser :=
  match fuel with
  | 0 => (.error fuelErr, p)
  | f + 1 =>
    if prec = 0 then ParseUnary f p
    else
      match parseBinaryPrec f (prec - 1) p with
      | (.error e, p1) => (.error e, p1)
      | (.ok expr, p1) => binLoop f prec expr p1

/-- `ParseBinary`: precedence climbing from `maxPrec`. -/
def ParseBinary (fuel : Nat) (p : Parser) : Except GoErr Expr × Parser :=
  match fuel with
  | 0 => (.error fuelErr, p)
  | f + 1 => parseBinaryPrec f maxPrec p

/-- `ParseExpr`: the expression entry point. -/
def ParseExpr (fuel : Nat) (p : Parser) : Except GoErr Expr × Parser :=
  match fuel with
  | 0 => (.error fuelErr, p)
  | f + 1 => ParseBinary f p

end

/-- A parser over a string content (`NewFromString`). -/
def mkParser (file : String) (content : List Char) : Parser := ⟨mkLexer file content⟩

/-! ### Helper lemmas about the scanners -/

theorem isDigit_bin_iff (c : Char) :
    isDigitOfBase c .binInt = true ↔ (c.toNat = 48 ∨ c.toNat = 49) := by
  simp [isDigitOfBase, Char.ext_iff, Char.toNat, UInt32.ext_iff, Fin.ext_iff, UInt32.size]

theorem isDigit_oct_iff (c : Char) :
    isDigitOfBase c .octInt = true ↔ (48 ≤ c.toNat ∧ c.toNat ≤ 55) := by
  simp [isDigitOfBase, Char.le_def, Char.toNat]
  exact Iff.rfl

theorem isDigit_dec_iff (c : Char) :
    isDigitOfBase c .decInt = true ↔ (48 ≤ c.toNat ∧ c.toNat ≤ 57) := by
  simp [isDigitOfBase, Char.le_def, Char.toNat]
  exact Iff.rfl

theorem isDigit_float_iff (c : Char) :
    isDigitOfBase c .float = true ↔ (48 ≤ c.toNat ∧ c.toNat ≤ 57) := by
  simp [isDigitOfBase, Char.le_def, Char.toNat]
  exact Iff.rfl

theorem isDigit_hex_iff (c : Char) :
    isDigitOfBase c .hexInt = true ↔
      ((48 ≤ c.toNat ∧ c.toNat ≤ 57) ∨ (97 ≤ c.toNat ∧ c.toNat ≤ 102) ∨
        (65 ≤ c.toNat ∧ c.toNat ≤ 70)) := by
  simp [isDigitOfBase, Char.le_def, Char.toNat]
  exact or_assoc

theorem isDigit_toNat_bounds (c : Char) (tag : TokenTag)
    (h : isDigitOfBase c tag = true) : 48 ≤ c.toNat ∧ c.toNat ≤ 102 := by
  cases tag
  case binInt => rw [isDigit_bin_iff] at h; omega
  case octInt => rw [isDigit_oct_iff] at h; omega
  case decInt => rw [isDigit_dec_iff] at h; omega
  case float => rw [isDigit_float_iff] at h; omega
  case hexInt => rw [isDigit_hex_iff] at h; omega
  all_goals simp [isDigitOfBase] at h

theorem isDigit_ne (tag : TokenTag) (c : Char) (h : isDigitOfBase c tag = true) :
    c ≠ '\n' ∧ c ≠ char0 ∧ c.toNat < 128 := by
  have hb := isDigit_toNat_bounds c tag h
  refine ⟨?_, ?_, by omega⟩
  · intro he; subst he; exact absurd hb (by decide)
  · intro he; subst he; exact absurd hb (by decide)

theorem goWriteRune_ascii (v : List Nat) (c : Char) (h : c.toNat < 128) :
    goWriteRune v c = v ++ [c.toNat] := by
  unfold goWriteRune utf8Enc
  rw [if_pos h]

/-- The digit loop consumes a digits-only remainder entirely, reaching the
end of the stream, and appends exactly the digit bytes to the value. -/
theorem digitsLoop_consume_all (tag : TokenTag) :
    ∀ (cs : List Char) (l : Lexer) (v : List Nat),
    l.input = cs → isDigitOfBase l.current tag = true →
    (∀ c ∈ cs, isDigitOfBase c tag = true) →
    ∃ loc, digitsLoop tag l v =
      ({ l with current := char0, consumed := true, input := [], endLoc := loc },
        v ++ (l.current :: cs).map Char.toNat) := by
  intro cs
  induction cs with
  | nil =>
    intro l v hin hcur _
    obtain ⟨hnl, h0, ha⟩ := isDigit_ne tag l.current hcur
    refine ⟨l.endLoc, ?_⟩
    rw [digitsLoop, dif_pos hcur, digitsLoop]
    simp only [advanceRune, hin]
    rw [dif_neg (by rw [isDigit_char0]; exact Bool.false_ne_true)]
    rw [goWriteRune_ascii v _ ha]
    simp [hin]
  | cons c1 cs ih =>
    intro l v hin hcur hall
    obtain ⟨hnl, h0, ha⟩ := isDigit_ne tag l.current hcur
    rw [digitsLoop, dif_pos hcur]
    simp only [advanceRune, hin]
    obtain ⟨loc, heq⟩ := ih { l with current := c1, input := cs, endLoc := bumpLoc l.endLoc c1 }
      (goWriteRune v l.current) rfl (hall c1 (by simp)) (fun c hc => hall c (by simp [hc]))
    refine ⟨loc, ?_⟩
    rw [heq, goWriteRune_ascii v _ ha]
    simp

/-- The scanning loop on a digits-only remainder: no decimal point or
exponent follows, so the token keeps its tag and carries the digit bytes. -/
theorem numScan_consume_all (tag : TokenTag) (hx : Bool) (v : List Nat) (l : Lexer)
    (hcur : isDigitOfBase l.current tag = true)
    (hall : ∀ c ∈ l.input, isDigitOfBase c tag = true) :
    ∃ l2, numScan tag hx v l =
      (.ok (tag, v ++ (l.current :: l.input).map Char.toNat), l2) := by
  obtain ⟨loc, heq⟩ := digitsLoop_consume_all tag l.input l v rfl hcur hall
  refine ⟨{ l with current := char0, consumed := true, input := [], endLoc := loc }, ?_⟩
  rw [numScan]
  simp only [heq]
  rw [dif_neg (by exact fun h => absurd h (by decide))]
  rw [dif_neg (by exact fun h => absurd h.1 (by decide))]

theorem decDigit_first_facts (c : Char) (hc : isDigitOfBase c .decInt = true) :
    c ≠ ' ' ∧ c ≠ '\t' ∧ c ≠ '\n' ∧ c ≠ ';' ∧ c ≠ '#' := by
  have hcn := (isDigit_dec_iff c).mp hc
  refine ⟨?_, ?_, ?_, ?_, ?_⟩ <;> (intro he; subst he; exact absurd hcn (by decide))

/-- Routing of a fresh `read` whose input begins with a decimal digit: the
first rune is loaded, no space is skipped, and the EOF/EOL/comment
classifiers fall through to `tryReadNumber`. -/
theorem read_fresh_number (c : Char) (cs : List Char)
    (hc : isDigitOfBase c .decInt = true) {t : Token} {l4 : Lexer}
    (hnum : tryReadNumber ⟨⟨"f", 0, 0⟩, bumpLoc ⟨"f", 0, 0⟩ c, c, false, cs, none, 0⟩ =
      (.ok t, l4)) :
    (Lexer.read (mkLexer "f" (c :: cs))).1 = .ok t := by
  obtain ⟨hsp, htab, hnl, hsemi, hhash⟩ := decDigit_first_facts c hc
  simp only [Lexer.read, mkLexer, if_true, and_self, reduceIte]
  simp only [advanceRune]
  rw [skipSpaces, dif_neg (by
    rintro (h | h | ⟨h0, _⟩)
    · exact hsp h
    · exact htab h
    · exact h0 rfl)]
  simp only [readClassify, tryReadEOF]
  rw [if_neg (by exact Bool.false_ne_true)]
  simp only [GoErr.is]
  rw [if_neg (by decide)]
  rw [tryReadEOL, if_pos (by exact Or.inr ⟨hnl, hsemi⟩)]
  simp only [GoErr.is]
  rw [if_neg (by decide)]
  rw [tryReadComment, if_neg hhash]
  simp only [GoErr.is]
  rw [if_neg (by decide)]
  rw [hnum]

/-- Routing of a fresh `read` whose input begins with a double quote: the
classifier chain reaches `tryReadString` and delivers its outcome. -/
theorem hexRun_error (n : Nat) :
    ∀ (l : Lexer) (ds : List Char) (e : GoErr),
    (hexRun n l ds).1 = .error e → e = .sentinel .malformedEscapeSequence := by
  induction n with
  | zero =>
    intro l ds e h
    rw [hexRun] at h
    exact absurd h (by simp)
  | succ n ih =>
    intro l ds e h
    rw [hexRun] at h
    split at h
    · exact ih _ _ _ h
    · simp at h
      exact h.symm

theorem decodeEscape_error (l : Lexer) (v : List Nat) (e : GoErr)
    (h : (decodeEscapeSequence l v).1 = .error e) :
    e = .sentinel .malformedEscapeSequence := by
  rw [decodeEscapeSequence] at h
  split at h
  · exact absurd h (by simp)
  · split at h
    · simp at h
      exact h.symm
    · rw [decodeHexEscape] at h
      split at h
      next e2 l3 heq =>
        simp at h
        subst h
        exact hexRun_error _ _ _ _ (by rw [heq])
      next ds l3 heq =>
        split at h <;> exact absurd h (by simp)

theorem stringLoop_error (l : Lexer) (v : List Nat) :
    ∀ (e : GoErr),
    (stringLoop l v).1 = .error e → e = .sentinel .malformedEscapeSequence := by
  induction l, v using stringLoop.induct with
  | case1 l v h hbs e0 hdec =>
    intro e hl
    rw [stringLoop, dif_pos h, if_pos hbs, hdec] at hl
    simp at hl
    subst hl
    exact decodeEscape_error (advanceRune l) v _ hdec
  | case2 l v h hbs v2 hdec hq =>
    intro e hl
    rw [stringLoop, dif_pos h, if_pos hbs, hdec] at hl
    simp [hq] at hl
  | case3 l v h hbs v2 hdec hq ih =>
    intro e hl
    rw [stringLoop, dif_pos h, if_pos hbs, hdec] at hl
    simp [hq] at hl
    exact ih _ hl
  | case4 l v h hbs hq =>
    intro e hl
    rw [stringLoop, dif_pos h, if_neg hbs, if_pos hq] at hl
    exact absurd hl (by simp)
  | case5 l v h hbs hq ih =>
    intro e hl
    rw [stringLoop, dif_pos h, if_neg hbs, if_neg hq] at hl
    exact ih _ hl
  | case6 l v h =>
    intro e hl
    rw [stringLoop, dif_neg h] at hl
    exact absurd hl (by simp)

/-- The lexer state at which `tryReadString` takes over during a fresh read
of `"` followed by `cs`. -/
def quoteState (cs : List Char) : Lexer :=
  ⟨⟨"f", 0, 0⟩, ⟨"f", 0, 1⟩, '"', false, cs, none, 0⟩

theorem tryReadString_error_kind (l : Lexer) (hq : l.current = '"') (e : GoErr)
    (h : (tryReadString l).1 = .error e) : e.is .invalidCharacter = false := by
  rw [tryReadString, if_pos hq] at h
  rcases hsl : stringLoop l [] with ⟨r, l2, v2⟩
  rw [hsl] at h
  cases r with
  | error e0 =>
    simp at h
    subst h
    have h2 := stringLoop_error l [] e0 (by rw [hsl])
    subst h2
    decide
  | ok u =>
    simp only at h
    split at h
    · exact absurd h (by simp)
    · simp at h
      subst h
      decide

/-- Routing of a fresh `read` whose input begins with a double quote: the
classifier chain falls through to `tryReadString`. -/
theorem read_at_quote (cs : List Char) :
    (Lexer.read (mkLexer "f" ('"' :: cs))).1 = (tryReadString (quoteState cs)).1 := by
  simp only [Lexer.read, mkLexer, if_true, and_self, reduceIte]
  simp only [advanceRune]
  rw [skipSpaces, dif_neg (by
    rintro (h | h | ⟨h0, _⟩)
    · simp at h
    · simp at h
    · exact h0 rfl)]
  simp only [readClassify, tryReadEOF]
  rw [if_neg (by simp)]
  simp only [GoErr.is]
  rw [if_neg (by decide)]
  rw [tryReadEOL, if_pos (by exact Or.inr ⟨by simp, by simp⟩)]
  simp only [GoErr.is]
  rw [if_neg (by decide)]
  rw [tryReadComment, if_neg (by simp)]
  simp only [GoErr.is]
  rw [if_neg (by decide)]
  rw [tryReadNumber, if_neg (by simp [isDigitOfBase])]
  simp only [GoErr.is]
  rw [if_neg (by decide)]
  have hqs : (⟨⟨"f", 0, 0⟩, bumpLoc ⟨"f", 0, 0⟩ '"', '"', false, cs, none, 0⟩ : Lexer) =
      quoteState cs := by
    simp [quoteState, bumpLoc]
  rw [hqs]
  rcases hs : tryReadString (quoteState cs) with ⟨r, l5⟩
  cases r with
  | ok t => rfl
  | error e =>
    have hk : e.is .invalidCharacter = false :=
      tryReadString_error_kind (quoteState cs) rfl e (by rw [hs])
    dsimp only []
    rw [if_pos hk]

/-- The lexer state at which `decodeEscapeSequence` takes over during a
fresh read of `"` then `\` then `tail`. -/
def escState (tail : List Char) : Lexer :=
  ⟨⟨"f", 0, 0⟩, ⟨"f", 0, 2⟩, '\\', false, tail, none, 0⟩

theorem advance_quote_esc (tail : List Char) :
    advanceRune (quoteState ('\\' :: tail)) = escState tail := by
  simp [advanceRune, quoteState, escState, bumpLoc]

/-- A fresh read of a string literal whose first content rune is a failing
escape reports the escape error. -/
theorem read_quote_escape_error (tail : List Char) (e : GoErr)
    (hdec : (decodeEscapeSequence (escState tail) []).1 = .error e) :
    (Lexer.read (mkLexer "f" ('"' :: '\\' :: tail))).1 = .error e := by
  rw [read_at_quote]
  have hsl : stringLoop (quoteState ('\\' :: tail)) [] =
      (.error e, (decodeEscapeSequence (escState tail) []).2, []) := by
    rw [stringLoop, dif_pos ⟨by simp [quoteState], by simp [quoteState]; decide⟩,
      advance_quote_esc, if_pos (show (escState tail).current = '\\' from rfl), hdec]
  rw [tryReadString, if_pos (show (quoteState ('\\' :: tail)).current = '"' from rfl), hsl]

/-- A fresh read of a string literal consisting of one escape directly
followed by the closing quote yields a string token whose value is what the
escape decoded. -/
theorem read_quote_escape_ok (tail : List Char) (v2 : List Nat) (l2 : Lexer)
    (hdec : decodeEscapeSequence (escState tail) [] = (.ok v2, l2))
    (hq : l2.current = '"') :
    (Lexer.read (mkLexer "f" ('"' :: '\\' :: tail))).1 =
      .ok ⟨.string, ⟨"f", 0, 0⟩, v2⟩ := by
  rw [read_at_quote]
  have hsl : stringLoop (quoteState ('\\' :: tail)) [] = (.ok (), l2, v2) := by
    rw [stringLoop, dif_pos ⟨by simp [quoteState], by simp [quoteState]; decide⟩,
      advance_quote_esc, if_pos (show (escState tail).current = '\\' from rfl)]
    simp only [hdec]
    rw [if_pos hq]
  rw [tryReadString, if_pos (show (quoteState ('\\' :: tail)).current = '"' from rfl), hsl]
  dsimp only []
  rw [if_pos hq]
  rfl

/-- A run of exactly `hs.length` hex digits succeeds, collects the digits
and leaves the cursor on the last one. -/
theorem hexRun_all :
    ∀ (hs : List Char) (l : Lexer) (ds : List Char) (rest : List Char),
    l.input = hs ++ rest → (∀ c ∈ hs, isDigitOfBase c .hexInt = true) → hs ≠ [] →
    ∃ loc, hexRun hs.length l ds =
      (.ok (ds ++ hs),
        { l with current := hs.getLastD char0, input := rest, endLoc := loc }) := by
  intro hs
  induction hs with
  | nil => intro l ds rest _ _ h3; exact absurd rfl h3
  | cons c1 cs ih =>
    intro l ds rest hin hall _
    obtain ⟨hnl, h0, ha⟩ := isDigit_ne .hexInt c1 (hall c1 (by simp))
    rw [show (c1 :: cs).length = cs.length + 1 from rfl, hexRun]
    simp only [advanceRune, hin, List.cons_append]
    rw [if_pos (by simpa using hall c1 (by simp))]
    cases cs with
    | nil =>
      refine ⟨bumpLoc l.endLoc c1, ?_⟩
      rw [show ([] : List Char).length = 0 from rfl, hexRun]
      simp
    | cons c2 cs2 =>
      obtain ⟨loc, heq⟩ := ih
        { l with current := c1, input := (c2 :: cs2) ++ rest, endLoc := bumpLoc l.endLoc c1 }
        (ds ++ [c1]) rest rfl (fun c hc => hall c (by simp [hc]))
        (by simp)
      refine ⟨loc, ?_⟩
      rw [heq]
      simp

/-- Decoding a hex escape (`x`, `u` or `U`) whose digits are all valid: the
digit run is consumed, the byte or rune is appended, and the cursor moves
one past the escape. -/
theorem decodeEscape_hex_all (ec : Char) (hsimple : simpleEscape ec = none)
    (hs : List Char) (rest : List Char) (htn : escTakeNext ec = hs.length)
    (hne : hs ≠ []) (hall : ∀ c ∈ hs, isDigitOfBase c .hexInt = true)
    (v : List Nat) (l : Lexer) (hin : l.input = ec :: (hs ++ rest)) :
    ∃ l2, decodeEscapeSequence l v =
        ((if escTakeNext ec = 2 then .ok (v ++ [parseHexNat hs % 256])
          else .ok (goWriteRuneInt v (goRuneOfInt64 (parseHexNat hs)))), l2)
      ∧ l2.current = rest.headD char0 ∧ l2.input = rest.tail := by
  rw [decodeEscapeSequence]
  simp only [advanceRune, hin]
  rw [hsimple]
  rw [if_neg (by rw [htn]; simpa using hne)]
  rw [decodeHexEscape, htn]
  obtain ⟨loc, heq⟩ := hexRun_all hs
    { l with current := ec, input := hs ++ rest, endLoc := bumpLoc l.endLoc ec } [] rest
    rfl hall hne
  rw [heq]
  dsimp only []
  rw [← htn]
  cases rest with
  | nil =>
    refine ⟨{ l with current := char0, consumed := true, input := [], endLoc := loc },
      ?_, rfl, rfl⟩
    by_cases h2 : escTakeNext ec = 2
    · rw [if_pos h2, if_pos h2]
      simp [advanceRune]
    · rw [if_neg h2, if_neg h2]
      simp [advanceRune]
  | cons r rs =>
    refine ⟨{ l with current := r, input := rs, endLoc := bumpLoc loc r }, ?_, rfl, rfl⟩
    by_cases h2 : escTakeNext ec = 2
    · rw [if_pos h2, if_pos h2]
      simp [advanceRune]
    · rw [if_neg h2, if_neg h2]
      simp [advanceRune]

theorem hexVal_lt_16 (c : Char) : hexVal c < 16 := by
  unfold hexVal
  split_ifs <;> omega

theorem parseHexNat_pair (h1 h2 : Char) :
    parseHexNat [h1, h2] = 16 * hexVal h1 + hexVal h2 := by
  simp [parseHexNat]
  ring

/-- The string loop over quote-free, escape-free content that reaches the
end of the stream: it stops with the cursor on the rune 0. -/
theorem stringLoop_plain_eof :
    ∀ (cs : List Char) (l : Lexer) (v : List Nat),
    l.input = cs →
    (∀ c ∈ cs, c ≠ '"' ∧ c ≠ '\\' ∧ c ≠ '\n' ∧ c ≠ char0) →
    l.current ≠ '\n' → l.current ≠ char0 →
    ∃ l2 v2, stringLoop l v = (.ok (), l2, v2) ∧ l2.current = char0 := by
  intro cs
  induction cs with
  | nil =>
    intro l v hin _ hnl h0
    rw [stringLoop, dif_pos ⟨hnl, h0⟩]
    simp only [advanceRune, hin]
    rw [if_neg (by simp [char0])]
    rw [if_neg (by simp [char0])]
    rw [stringLoop, dif_neg (by simp)]
    exact ⟨_, _, rfl, rfl⟩
  | cons c1 cs ih =>
    intro l v hin hall hnl h0
    obtain ⟨hq1, hbs1, hnl1, h01⟩ := hall c1 (by simp)
    rw [stringLoop, dif_pos ⟨hnl, h0⟩]
    simp only [advanceRune, hin]
    rw [if_neg hbs1, if_neg hq1]
    exact ih _ _ rfl (fun c hc => hall c (by simp [hc])) hnl1 h01

/-- The string loop over quote-free, escape-free content that reaches a
newline: it stops with the cursor on the newline. -/
theorem stringLoop_plain_nl :
    ∀ (cs : List Char) (l : Lexer) (v : List Nat) (rest : List Char),
    l.input = cs ++ '\n' :: rest →
    (∀ c ∈ cs, c ≠ '"' ∧ c ≠ '\\' ∧ c ≠ '\n' ∧ c ≠ char0) →
    l.current ≠ '\n' → l.current ≠ char0 →
    ∃ l2 v2, stringLoop l v = (.ok (), l2, v2) ∧ l2.current = '\n' := by
  intro cs
  induction cs with
  | nil =>
    intro l v rest hin _ hnl h0
    rw [stringLoop, dif_pos ⟨hnl, h0⟩]
    simp only [advanceRune, hin, List.nil_append]
    rw [if_neg (by simp), if_neg (by simp)]
    rw [stringLoop, dif_neg (by simp)]
    exact ⟨_, _, rfl, rfl⟩
  | cons c1 cs ih =>
    intro l v rest hin hall hnl h0
    obtain ⟨hq1, hbs1, hnl1, h01⟩ := hall c1 (by simp)
    rw [stringLoop, dif_pos ⟨hnl, h0⟩]
    simp only [advanceRune, hin, List.cons_append]
    rw [if_neg hbs1, if_neg hq1]
    exact ih _ _ rest rfl (fun c hc => hall c (by simp [hc])) hnl1 h01

/-- The UTF-8 bytes of a rune sequence, as a builder accumulates them. -/
def utf8Bytes : List Char → List Nat
  | [] => []
  | c :: cs => utf8Enc c.toNat ++ utf8Bytes cs

/-- The comment loop consumes everything up to (but not including) the
first newline and collects its bytes. -/
theorem commentLoop_consume (rest : List Char) :
    ∀ (cs : List Char) (l : Lexer) (v : List Nat),
    l.input = cs ++ '\n' :: rest →
    (∀ c ∈ cs, c ≠ '\n' ∧ c ≠ char0) →
    l.current ≠ '\n' → l.current ≠ char0 →
    ∃ loc, commentLoop l v =
      ({ l with current := '\n', input := rest, endLoc := loc },
        v ++ utf8Bytes (l.current :: cs)) := by
  intro cs
  induction cs with
  | nil =>
    intro l v hin _ hnl h0
    refine ⟨bumpLoc l.endLoc '\n', ?_⟩
    rw [commentLoop, dif_pos ⟨hnl, h0⟩]
    simp only [advanceRune, hin, List.nil_append]
    rw [commentLoop, dif_neg (by simp)]
    simp [goWriteRune, utf8Bytes]
  | cons c1 cs ih =>
    intro l v hin hall hnl h0
    obtain ⟨hnl1, h01⟩ := hall c1 (by simp)
    rw [commentLoop, dif_pos ⟨hnl, h0⟩]
    simp only [advanceRune, hin, List.cons_append]
    obtain ⟨loc, heq⟩ := ih
      { l with current := c1, input := cs ++ '\n' :: rest, endLoc := bumpLoc l.endLoc c1 }
      (goWriteRune v l.current) rfl (fun c hc => hall c (by simp [hc])) hnl1 h01
    refine ⟨loc, ?_⟩
    rw [heq]
    simp [goWriteRune, utf8Bytes]

/-- The lexer state at which `tryReadComment` takes over during a fresh
read of `#` followed by `cs`. -/
def hashState (cs : List Char) : Lexer :=
  ⟨⟨"f", 0, 0⟩, ⟨"f", 0, 1⟩, '#', false, cs, none, 0⟩

/-- Routing of a fresh `read` whose input begins with `#`: the classifier
chain reaches `tryReadComment` and delivers its (always successful)
outcome, with the deferred start-location assignment applied. -/
theorem read_fresh_comment (cs : List Char) :
    Lexer.read (mkLexer "f" ('#' :: cs)) =
      ((tryReadComment (hashState cs)).1,
        { (tryReadComment (hashState cs)).2 with
            startLoc := (tryReadComment (hashState cs)).2.endLoc }) := by
  simp only [Lexer.read, mkLexer, if_true, and_self, reduceIte]
  simp only [advanceRune]
  rw [skipSpaces, dif_neg (by
    rintro (h | h | ⟨h0, _⟩)
    · simp at h
    · simp at h
    · exact h0 rfl)]
  simp only [readClassify, tryReadEOF]
  rw [if_neg (by simp)]
  simp only [GoErr.is]
  rw [if_neg (by decide)]
  rw [tryReadEOL, if_pos (by exact Or.inr ⟨by simp, by simp⟩)]
  simp only [GoErr.is]
  rw [if_neg (by decide)]
  have hqs : (⟨⟨"f", 0, 0⟩, bumpLoc ⟨"f", 0, 0⟩ '#', '#', false, cs, none, 0⟩ : Lexer) =
      hashState cs := by
    simp [hashState, bumpLoc]
  rw [hqs]
  rcases hc : tryReadComment (hashState cs) with ⟨r, l3⟩
  cases r with
  | ok t => rfl
  | error e =>
    rw [tryReadComment, if_pos (show (hashState cs).current = '#' from rfl)] at hc
    exact absurd (congrArg Prod.fst hc) (by simp)

/-! ### The claims -/

set_option maxHeartbeats 1000000 in
/-- Claim C1: the precedence-climbing expression parser builds standard
left-associative, precedence-correct trees: `a + b * c` parses with `+` at
the root and the `*` node as its right child, and `a + b + c` parses
left-associatively with the first `+` as the root's left child. -/
theorem claim_C1 :
    (ParseExpr 100 (mkParser "f" ("a + b * c".toList))).1 =
      .ok (.binaryOp ⟨.punct, ⟨"f", 0, 2⟩, strB "+"⟩
        (.ident ⟨.word, ⟨"f", 0, 0⟩, strB "a"⟩)
        (.binaryOp ⟨.punct, ⟨"f", 0, 6⟩, strB "*"⟩
          (.ident ⟨.word, ⟨"f", 0, 4⟩, strB "b"⟩)
          (.ident ⟨.word, ⟨"f", 0, 8⟩, strB "c"⟩)))
  ∧ (ParseExpr 100 (mkParser "f" ("a + b + c".toList))).1 =
      .ok (.binaryOp ⟨.punct, ⟨"f", 0, 6⟩, strB "+"⟩
        (.binaryOp ⟨.punct, ⟨"f", 0, 2⟩, strB "+"⟩
          (.ident ⟨.word, ⟨"f", 0, 0⟩, strB "a"⟩)
          (.ident ⟨.word, ⟨"f", 0, 4⟩, strB "b"⟩))
        (.ident ⟨.word, ⟨"f", 0, 8⟩, strB "c"⟩)) := by
  constructor <;>
    simp [Lexer.read, readClassify, tryReadEOF, tryReadEOL, tryReadComment, tryReadNumber,
      tryReadString, tryReadWord, tryReadPunct, skipSpaces, eolLoop, commentLoop, digitsLoop,
      numScan, numPrefix, stringLoop, wordLoop, punctLoop, advanceRune, bumpLoc, bumpStart, mkLexer,
      isDigitOfBase, goIsSpace, goIsLetter, goIsDigit, goWriteRune, utf8Enc, char0, strB,
      punctuations, GoErr.is, Lexer.Unread, expect, tokPat, tokPatV, ParseIdent, ParseLiteral,
      punctPrec, maxPrec, mkParser, parseField, parseFieldValue, parseFieldOptions,
      parseFieldEOL, parseBlock, blockLoop, ParseStructDef, ParseUnionDef, ParseEnumDef,
      protoLoop, ParsePrototypeDef, ParseGroup, ParseAtom, lookupLoop, ParseLookup, argsLoop,
      parseArgs, subscriptLoop, ParseSubscript, ParseUnary, binTryOps, binLoop,
      parseBinaryPrec, ParseBinary, ParseExpr]

set_option maxHeartbeats 2000000 in
/-- Claim C8: `ParseSubscript` error classification: a call with a missing
`)` fails matching both unclosed-parenthesis and unexpected-token under
`errors.Is`; an index with a missing `]` fails matching both
unclosed-subscription and unexpected-token; an index whose inner expression
is invalid (`a[]`) fails with unexpected-token but not
unclosed-subscription. -/
theorem claim_C8 :
    ((ParseExpr 100 (mkParser "f" ("a(1".toList))).1 =
        .error (((GoErr.sentinel .unexpectedToken).wrap (.msg [])).wrap
          (.sentinel .unclosedParenthesis))
      ∧ ((((GoErr.sentinel .unexpectedToken).wrap (.msg [])).wrap
          (.sentinel .unclosedParenthesis)).is .unclosedParenthesis = true
        ∧ (((GoErr.sentinel .unexpectedToken).wrap (.msg [])).wrap
          (.sentinel .unclosedParenthesis)).is .unexpectedToken = true))
  ∧ ((ParseExpr 100 (mkParser "f" ("a[1".toList))).1 =
        .error (((GoErr.sentinel .unexpectedToken).wrap (.msg [])).wrap
          (.sentinel .unclosedSubscription))
      ∧ ((((GoErr.sentinel .unexpectedToken).wrap (.msg [])).wrap
          (.sentinel .unclosedSubscription)).is .unclosedSubscription = true
        ∧ (((GoErr.sentinel .unexpectedToken).wrap (.msg [])).wrap
          (.sentinel .unclosedSubscription)).is .unexpectedToken = true))
  ∧ ((ParseExpr 100 (mkParser "f" ("a[]".toList))).1 =
        .error ((GoErr.sentinel .unexpectedToken).wrap (.msg (strB " was expecting atom")))
      ∧ (((GoErr.sentinel .unexpectedToken).wrap
          (.msg (strB " was expecting atom"))).is .unexpectedToken = true
        ∧ ((GoErr.sentinel .unexpectedToken).wrap
          (.msg (strB " was expecting atom"))).is .unclosedSubscription = false)) := by
  refine ⟨⟨?_, by decide, by decide⟩, ⟨?_, by decide, by decide⟩, ⟨?_, by decide, by decide⟩⟩ <;>
    simp [Lexer.read, readClassify, tryReadEOF, tryReadEOL, tryReadComment,
      tryReadNumber, tryReadString, tryReadWord, tryReadPunct, skipSpaces, eolLoop,
      commentLoop, digitsLoop, numScan, numPrefix, stringLoop, wordLoop, punctLoop, advanceRune, bumpLoc,
      bumpStart, mkLexer, isDigitOfBase, goIsSpace, goIsLetter, goIsDigit, goWriteRune,
      utf8Enc, char0, strB, punctuations, GoErr.is, Lexer.Unread, expect, tokPat, tokPatV,
      ParseIdent, ParseLiteral, punctPrec, maxPrec, mkParser, parseField, parseFieldValue,
      parseFieldOptions, parseFieldEOL, parseBlock, blockLoop, ParseStructDef, ParseUnionDef,
      ParseEnumDef, protoLoop, ParsePrototypeDef, ParseGroup, ParseAtom, lookupLoop,
      ParseLookup, argsLoop, parseArgs, subscriptLoop, ParseSubscript, ParseUnary, binTryOps,
      binLoop, parseBinaryPrec, ParseBinary, ParseExpr]

theorem numScan_tag :
    ∀ (tag : TokenTag) (hx : Bool) (v : List Nat) (l : Lexer) (t : TokenTag) (v2 : List Nat),
    (numScan tag hx v l).1 = .ok (t, v2) → t = tag ∨ t = .float := by
  intro tag hx v l
  induction tag, hx, v, l using numScan.induct with
  | case1 hx v l r hdot ih =>
    intro t v2 h
    rw [numScan] at h
    simp only [] at h
    have hdot2 : (digitsLoop TokenTag.decInt l v).1.current = '.' := hdot
    rw [dif_pos hdot2] at h
    simp only [if_true] at h
    exact Or.inr ((ih _ _ h).elim id id)
  | case2 tag hx v l r hdot hne =>
    intro t v2 h
    rw [numScan] at h
    simp only [] at h
    have hdot2 : (digitsLoop tag l v).1.current = '.' := hdot
    rw [dif_pos hdot2, if_neg hne] at h
    simp at h
  | case3 tag hx v l r hndot hexp v2a l2a hsign v3a l3a hdig ih =>
    intro t v2 h
    rw [numScan] at h
    simp only [] at h
    have hndot2 : ¬(digitsLoop tag l v).1.current = '.' := hndot
    have hexp2 : (digitsLoop tag l v).1.current = 'e' ∧ hx = false ∧
        (tag = TokenTag.decInt ∨ tag = TokenTag.float) := hexp
    have hsign2 : (advanceRune (digitsLoop tag l v).1).current = '-' ∨
        (advanceRune (digitsLoop tag l v).1).current = '+' := hsign
    have hdig2 : isDigitOfBase (advanceRune (advanceRune (digitsLoop tag l v).1)).current
        TokenTag.float = true := hdig
    rw [dif_neg hndot2, dif_pos hexp2, if_pos hsign2, if_pos hdig2] at h
    exact ih _ _ h
  | case4 tag hx v l r hndot hexp l2a hsign l3a hnd =>
    intro t v2 h
    rw [numScan] at h
    simp only [] at h
    have hndot2 : ¬(digitsLoop tag l v).1.current = '.' := hndot
    have hexp2 : (digitsLoop tag l v).1.current = 'e' ∧ hx = false ∧
        (tag = TokenTag.decInt ∨ tag = TokenTag.float) := hexp
    have hsign2 : (advanceRune (digitsLoop tag l v).1).current = '-' ∨
        (advanceRune (digitsLoop tag l v).1).current = '+' := hsign
    have hnd2 : ¬isDigitOfBase (advanceRune (advanceRune (digitsLoop tag l v).1)).current
        TokenTag.float = true := hnd
    rw [dif_neg hndot2, dif_pos hexp2, if_pos hsign2, if_neg hnd2] at h
    simp at h
  | case5 tag hx v l r hndot hexp v2a l2a hnsign hdig ih =>
    intro t v2 h
    rw [numScan] at h
    simp only [] at h
    have hndot2 : ¬(digitsLoop tag l v).1.current = '.' := hndot
    have hexp2 : (digitsLoop tag l v).1.current = 'e' ∧ hx = false ∧
        (tag = TokenTag.decInt ∨ tag = TokenTag.float) := hexp
    have hnsign2 : ¬((advanceRune (digitsLoop tag l v).1).current = '-' ∨
        (advanceRune (digitsLoop tag l v).1).current = '+') := hnsign
    have hdig2 : isDigitOfBase (advanceRune (digitsLoop tag l v).1).current
        TokenTag.float = true := hdig
    rw [dif_neg hndot2, dif_pos hexp2, if_neg hnsign2, if_pos hdig2] at h
    exact ih _ _ h
  | case6 tag hx v l r hndot hexp l2a hnsign hnd =>
    intro t v2 h
    rw [numScan] at h
    simp only [] at h
    have hndot2 : ¬(digitsLoop tag l v).1.current = '.' := hndot
    have hexp2 : (digitsLoop tag l v).1.current = 'e' ∧ hx = false ∧
        (tag = TokenTag.decInt ∨ tag = TokenTag.float) := hexp
    have hnsign2 : ¬((advanceRune (digitsLoop tag l v).1).current = '-' ∨
        (advanceRune (digitsLoop tag l v).1).current = '+') := hnsign
    have hnd2 : ¬isDigitOfBase (advanceRune (digitsLoop tag l v).1).current
        TokenTag.float = true := hnd
    rw [dif_neg hndot2, dif_pos hexp2, if_neg hnsign2, if_neg hnd2] at h
    simp at h
  | case7 tag hx v l r hndot hnexp =>
    intro t v2 h
    rw [numScan] at h
    simp only [] at h
    have hndot2 : ¬(digitsLoop tag l v).1.current = '.' := hndot
    have hnexp2 : ¬((digitsLoop tag l v).1.current = 'e' ∧ hx = false ∧
        (tag = TokenTag.decInt ∨ tag = TokenTag.float)) := hnexp
    rw [dif_neg hndot2, dif_neg hnexp2] at h
    simp at h
    exact Or.inl h.1.symm

/-- Claim C6: the single-slot pushback protocol: with an empty slot,
`Unread` succeeds and the next `read` returns exactly the parked token and
clears the slot; with a full slot, `Unread` fails with the already-unread
error and leaves the state (and the pending token) untouched. -/
theorem claim_C6 (l : Lexer) (t : Token) :
    (l.unread = none →
      Lexer.Unread l t = (none, { l with unread := some t })
      ∧ Lexer.read { l with unread := some t } = (.ok t, { l with unread := none }))
  ∧ (∀ t0, l.unread = some t0 → Lexer.Unread l t = (some (.sentinel .alreadyUnread), l)) := by
  constructor
  · intro h
    constructor
    · rw [Lexer.Unread.eq_def, h]
    · rw [Lexer.read.eq_def]
  · intro t0 h
    rw [Lexer.Unread.eq_def, h]

/-- Witness for claim C6 at a concrete lexer and token. -/
theorem claim_C6_witness :
    (Lexer.Unread (mkLexer "f" []) ⟨.word, ⟨"f", 0, 0⟩, [120]⟩ =
        (none, { mkLexer "f" [] with unread := some ⟨.word, ⟨"f", 0, 0⟩, [120]⟩ })
      ∧ Lexer.read { mkLexer "f" [] with unread := some ⟨.word, ⟨"f", 0, 0⟩, [120]⟩ } =
        (.ok ⟨.word, ⟨"f", 0, 0⟩, [120]⟩, { mkLexer "f" [] with unread := none }))
  ∧ Lexer.Unread { mkLexer "f" [] with unread := some ⟨.word, ⟨"f", 0, 0⟩, [120]⟩ }
      ⟨.eol, ⟨"f", 0, 0⟩, []⟩ =
      (some (.sentinel .alreadyUnread),
        { mkLexer "f" [] with unread := some ⟨.word, ⟨"f", 0, 0⟩, [120]⟩ }) := by
  exact ⟨(claim_C6 (mkLexer "f" []) ⟨.word, ⟨"f", 0, 0⟩, [120]⟩).1 rfl,
    (claim_C6 { mkLexer "f" [] with unread := some ⟨.word, ⟨"f", 0, 0⟩, [120]⟩ }
      ⟨.eol, ⟨"f", 0, 0⟩, []⟩).2 ⟨.word, ⟨"f", 0, 0⟩, [120]⟩ rfl⟩

theorem tryReadEOF_state (l : Lexer) : (tryReadEOF l).2 = l := by
  rw [tryReadEOF]
  split <;> rfl

theorem tryReadEOF_tag (l : Lexer) (t : Token) (l2 : Lexer)
    (h : tryReadEOF l = (.ok t, l2)) : t.tag = .eof := by
  rw [tryReadEOF] at h
  split at h
  · injection h with h1 _
    injection h1 with h1
    exact h1 ▸ rfl
  · injection h with h1 _
    exact absurd h1 (by simp)

theorem tryReadComment_tag (l : Lexer) (t : Token) (l2 : Lexer)
    (h : tryReadComment l = (.ok t, l2)) : t.tag = .comment := by
  rw [tryReadComment] at h
  split at h
  · injection h with h1 _
    injection h1 with h1
    exact h1 ▸ rfl
  · injection h with h1 _
    exact absurd h1 (by simp)

theorem numPrefix_tag (l : Lexer) : (numPrefix l).1 ≠ TokenTag.eol := by
  simp only [numPrefix]
  by_cases h0 : l.current = '0'
  · simp only [if_pos h0]
    by_cases hb : (advanceRune l).current = 'b'
    · simp only [if_pos hb]; simp
    · simp only [if_neg hb]
      by_cases ho : (advanceRune l).current = 'o'
      · simp only [if_pos ho]; simp
      · simp only [if_neg ho]
        by_cases hx : (advanceRune l).current = 'x'
        · simp only [if_pos hx]; simp
        · simp only [if_neg hx]
          by_cases hd : (advanceRune l).current = '.'
          · simp only [if_pos hd]; simp
          · simp only [if_neg hd]; simp
  · simp only [if_neg h0]; simp

theorem tryReadNumber_tag (l : Lexer) (t : Token) (l2 : Lexer)
    (h : tryReadNumber l = (.ok t, l2)) : t.tag ≠ .eol := by
  rw [tryReadNumber] at h
  split at h
  · split at h
    next tag v l2a heq =>
      injection h with h1 _
      injection h1 with h1
      have h2 : t.tag = tag := h1 ▸ rfl
      rw [h2]
      rcases numScan_tag _ _ _ _ _ _ (by rw [heq]) with h3 | h3
      · rw [h3]
        exact numPrefix_tag l
      · rw [h3]
        simp
    next heq =>
      injection h with h1 _
      exact absurd h1 (by simp)
  · injection h with h1 _
    exact absurd h1 (by simp)

theorem tryReadString_tag (l : Lexer) (t : Token) (l2 : Lexer)
    (h : tryReadString l = (.ok t, l2)) : t.tag = .string := by
  rw [tryReadString] at h
  split at h
  · split at h
    · injection h with h1 _
      exact absurd h1 (by simp)
    · split at h
      · injection h with h1 _
        injection h1 with h1
        exact h1 ▸ rfl
      · injection h with h1 _
        exact absurd h1 (by simp)
  · injection h with h1 _
    exact absurd h1 (by simp)

theorem tryReadWord_tag (l : Lexer) (t : Token) (l2 : Lexer)
    (h : tryReadWord l = (.ok t, l2)) : t.tag = .word := by
  rw [tryReadWord] at h
  split at h
  · injection h with h1 _
    injection h1 with h1
    exact h1 ▸ rfl
  · injection h with h1 _
    exact absurd h1 (by simp)

theorem tryReadPunct_tag (l : Lexer) (t : Token) (l2 : Lexer)
    (h : tryReadPunct l = (.ok t, l2)) : t.tag = .punct := by
  rw [tryReadPunct] at h
  split at h
  · injection h with h1 _
    exact absurd h1 (by simp)
  · injection h with h1 _
    injection h1 with h1
    exact h1 ▸ rfl

theorem group_advance (l : Lexer) : (advanceRune l).group = l.group := by
  rw [advanceRune]
  split <;> rfl

theorem group_skipSpaces (l : Lexer) : (skipSpaces l).group = l.group := by
  induction l using skipSpaces.induct with
  | case1 l h ih =>
    rw [skipSpaces, dif_pos h]
    rw [ih, group_advance]
    rfl
  | case2 l h =>
    rw [skipSpaces, dif_neg h]

/-- With a positive group counter, the classifier chain never returns an
EOL token: the EOL classifier refuses and every other classifier stamps a
different tag. -/
theorem readClassify_no_eol (l : Lexer) (hg : l.group ≠ 0) (t : Token)
    (h : (readClassify l).1 = .ok t) : t.tag ≠ .eol := by
  rw [readClassify] at h
  rcases hEOF : tryReadEOF l with ⟨rE, L1⟩
  rw [hEOF] at h
  have hL1 : L1 = l := by
    have h2 := tryReadEOF_state l
    rw [hEOF] at h2
    exact h2
  cases rE with
  | ok tE =>
    simp only at h
    injection h with h1
    rw [← h1]
    rw [tryReadEOF_tag l tE L1 hEOF]
    simp
  | error e =>
    simp only at h
    split at h
    · exact absurd h (by simp)
    · rw [hL1, tryReadEOL, if_pos (Or.inl hg)] at h
      simp only [GoErr.is] at h
      rw [if_neg (by decide)] at h
      rcases hC : tryReadComment l with ⟨rC, L3⟩
      rw [hC] at h
      cases rC with
      | ok tC =>
        simp only at h
        injection h with h1
        rw [← h1, tryReadComment_tag l tC L3 hC]
        simp
      | error eC =>
        simp only at h
        split at h
        · exact absurd h (by simp)
        · rcases hN : tryReadNumber L3 with ⟨rN, L4⟩
          rw [hN] at h
          cases rN with
          | ok tN =>
            simp only at h
            injection h with h1
            rw [← h1]
            exact tryReadNumber_tag L3 tN L4 hN
          | error eN =>
            simp only at h
            split at h
            · exact absurd h (by simp)
            · rcases hS : tryReadString L4 with ⟨rS, L5⟩
              rw [hS] at h
              cases rS with
              | ok tS =>
                simp only at h
                injection h with h1
                rw [← h1, tryReadString_tag L4 tS L5 hS]
                simp
              | error eS =>
                simp only at h
                split at h
                · exact absurd h (by simp)
                · rcases hW : tryReadWord L5 with ⟨rW, L6⟩
                  rw [hW] at h
                  cases rW with
                  | ok tW =>
                    simp only at h
                    injection h with h1
                    rw [← h1, tryReadWord_tag L5 tW L6 hW]
                    simp
                  | error eW =>
                    simp only at h
                    split at h
                    · exact absurd h (by simp)
                    · rcases hP : tryReadPunct L6 with ⟨rP, L7⟩
                      rw [hP] at h
                      cases rP with
                      | ok tP =>
                        simp only at h
                        injection h with h1
                        rw [← h1, tryReadPunct_tag L6 tP L7 hP]
                        simp
                      | error eP =>
                        simp only at h
                        split at h
                        · exact absurd h (by simp)
                        · exact absurd h (by simp)

/-- Claim C7 counterexample: a reachable lexer state (produced by `Unread`
then `PushGroup`, both public API calls) in which the group counter is
positive and `read` nevertheless returns an EOL token, because the
pushback slot is served before any scanning. -/
theorem claim_C7_counterexample :
    (Lexer.PushGroup (Lexer.Unread (mkLexer "f" []) ⟨.eol, ⟨"f", 0, 0⟩, []⟩).2).group ≠ 0
  ∧ (Lexer.read
      (Lexer.PushGroup (Lexer.Unread (mkLexer "f" []) ⟨.eol, ⟨"f", 0, 0⟩, []⟩).2)).1 =
      .ok ⟨.eol, ⟨"f", 0, 0⟩, []⟩ := by
  constructor
  · simp [Lexer.PushGroup, Lexer.Unread, mkLexer]
  · rfl

/-- Claim C7, amended: provided no pushed-back token is pending, `read`
never returns an EOL token while the group counter is positive (newlines
are consumed as white space), and with a zero counter a newline at the
cursor produces an EOL token. -/
theorem claim_C7 (l : Lexer) (hun : l.unread = none) :
    (l.group ≠ 0 → ∀ t l2, Lexer.read l = (.ok t, l2) → t.tag ≠ .eol)
  ∧ (l.group = 0 → l.consumed = false → l.current = '\n' →
      (Lexer.read l).1 = .ok ⟨.eol, l.startLoc, []⟩) := by
  constructor
  · intro hg t l2 h
    rw [Lexer.read.eq_def, hun] at h
    simp only at h
    have hgroup : (skipSpaces (if l.current = char0 ∧ l.consumed = false
        then advanceRune l else l)).group ≠ 0 := by
      rw [group_skipSpaces]
      split
      · rw [group_advance]; exact hg
      · exact hg
    have h1 : (readClassify (skipSpaces (if l.current = char0 ∧ l.consumed = false
        then advanceRune l else l))).1 = .ok t := congrArg Prod.fst h
    exact readClassify_no_eol _ hgroup t h1
  · intro hg hcons hcur
    have h1 : (if l.current = char0 ∧ l.consumed = false then advanceRune l else l) = l :=
      if_neg (by rw [hcur]; rintro ⟨h1, _⟩; exact absurd h1 (by decide))
    have h2 : skipSpaces l = l := by
      rw [skipSpaces, dif_neg (by
        rw [hcur]
        rintro (h3 | h3 | ⟨h3, _⟩)
        · exact absurd h3 (by decide)
        · exact absurd h3 (by decide)
        · exact h3 hg)]
    have h3 : tryReadEOF l = (.error (.sentinel .invalidCharacter), l) := by
      rw [tryReadEOF, if_neg (by rw [hcons]; exact Bool.false_ne_true)]
    have h4 : tryReadEOL l = (.ok ⟨.eol, l.startLoc, []⟩, eolLoop l) := by
      rw [tryReadEOL, if_neg (by
        rintro (h5 | ⟨h5, _⟩)
        · exact h5 hg
        · exact h5 hcur)]
    rw [Lexer.read.eq_def, hun]
    simp only
    rw [h1, h2, readClassify, h3]
    simp only [GoErr.is]
    rw [if_neg (by decide), h4]

/-- Witness for the amended claim C7: with the group pushed, reading input
starting with a newline yields a word (not EOL); at group zero a newline at
the cursor yields EOL. -/
theorem claim_C7_witness :
    (∀ t l2, Lexer.read (Lexer.PushGroup (mkLexer "f" ['\n', 'x'])) = (.ok t, l2) →
      t.tag ≠ .eol)
  ∧ (Lexer.read (advanceRune (mkLexer "f" ['\n']))).1 =
      .ok ⟨.eol, (advanceRune (mkLexer "f" ['\n'])).startLoc, []⟩ := by
  exact ⟨(claim_C7 (Lexer.PushGroup (mkLexer "f" ['\n', 'x'])) rfl).1 (by decide),
    (claim_C7 (advanceRune (mkLexer "f" ['\n'])) (by decide)).2 (by decide) (by decide)
      (by decide)⟩

/-- The lexer state at which `tryReadNumber` takes over during a fresh read
of digit `c` followed by `cs`. -/
abbrev numState (c : Char) (cs : List Char) : Lexer :=
  ⟨⟨"f", 0, 0⟩, bumpLoc ⟨"f", 0, 0⟩ c, c, false, cs, none, 0⟩

theorem tryReadNumber_eval (l : Lexer) (hdec : isDigitOfBase l.current .decInt = true)
    (tag : TokenTag) (v : List Nat) (l2 : Lexer)
    (hscan : numScan (numPrefix l).1 false (numPrefix l).2.1 (numPrefix l).2.2 =
      (.ok (tag, v), l2)) :
    tryReadNumber l = (.ok ⟨tag, l.startLoc, v⟩, l2) := by
  rw [tryReadNumber, if_pos hdec, hscan]

theorem decDigit_not_prefix (c : Char) (h : isDigitOfBase c .decInt = true) :
    c ≠ 'b' ∧ c ≠ 'o' ∧ c ≠ 'x' ∧ c ≠ '.' := by
  have hcn := (isDigit_dec_iff c).mp h
  refine ⟨?_, ?_, ?_, ?_⟩ <;> (intro he; subst he; exact absurd hcn (by decide))

/-- Claim C2: integer literal tokens carry the radix in the tag and exclude
the radix prefix from the value: `0b`, `0o` and `0x` prefixed digit runs
come back as BinInt, OctInt and HexInt tokens whose value holds exactly the
digits after the prefix, and unprefixed digit runs come back as DecInt
tokens holding all their digits. -/
theorem claim_C2 :
    (∀ d ds, (∀ c ∈ d :: ds, isDigitOfBase c .binInt = true) →
      (Lexer.read (mkLexer "f" ('0' :: 'b' :: d :: ds))).1 =
        .ok ⟨.binInt, ⟨"f", 0, 0⟩, (d :: ds).map Char.toNat⟩)
  ∧ (∀ d ds, (∀ c ∈ d :: ds, isDigitOfBase c .octInt = true) →
      (Lexer.read (mkLexer "f" ('0' :: 'o' :: d :: ds))).1 =
        .ok ⟨.octInt, ⟨"f", 0, 0⟩, (d :: ds).map Char.toNat⟩)
  ∧ (∀ d ds, (∀ c ∈ d :: ds, isDigitOfBase c .hexInt = true) →
      (Lexer.read (mkLexer "f" ('0' :: 'x' :: d :: ds))).1 =
        .ok ⟨.hexInt, ⟨"f", 0, 0⟩, (d :: ds).map Char.toNat⟩)
  ∧ (∀ d ds, (∀ c ∈ d :: ds, isDigitOfBase c .decInt = true) →
      (Lexer.read (mkLexer "f" (d :: ds))).1 =
        .ok ⟨.decInt, ⟨"f", 0, 0⟩, (d :: ds).map Char.toNat⟩) := by
  refine ⟨?_, ?_, ?_, ?_⟩
  · intro d ds hall
    obtain ⟨l2, hscan⟩ := numScan_consume_all .binInt false []
      (advanceRune (advanceRune (numState '0' ('b' :: d :: ds))))
      (hall d (by simp)) (fun c hc => hall c (List.mem_cons_of_mem d hc))
    have hscan2 : numScan (numPrefix (numState '0' ('b' :: d :: ds))).1 false
        (numPrefix (numState '0' ('b' :: d :: ds))).2.1
        (numPrefix (numState '0' ('b' :: d :: ds))).2.2 =
        (.ok (.binInt, (d :: ds).map Char.toNat), l2) := hscan
    exact read_fresh_number '0' ('b' :: d :: ds) (by decide)
      (tryReadNumber_eval _ ((by decide : isDigitOfBase '0' TokenTag.decInt = true)) _ _ _
        hscan2)
  · intro d ds hall
    obtain ⟨l2, hscan⟩ := numScan_consume_all .octInt false []
      (advanceRune (advanceRune (numState '0' ('o' :: d :: ds))))
      (hall d (by simp)) (fun c hc => hall c (List.mem_cons_of_mem d hc))
    have hscan2 : numScan (numPrefix (numState '0' ('o' :: d :: ds))).1 false
        (numPrefix (numState '0' ('o' :: d :: ds))).2.1
        (numPrefix (numState '0' ('o' :: d :: ds))).2.2 =
        (.ok (.octInt, (d :: ds).map Char.toNat), l2) := hscan
    exact read_fresh_number '0' ('o' :: d :: ds) (by decide)
      (tryReadNumber_eval _ ((by decide : isDigitOfBase '0' TokenTag.decInt = true)) _ _ _
        hscan2)
  · intro d ds hall
    obtain ⟨l2, hscan⟩ := numScan_consume_all .hexInt false []
      (advanceRune (advanceRune (numState '0' ('x' :: d :: ds))))
      (hall d (by simp)) (fun c hc => hall c (List.mem_cons_of_mem d hc))
    have hscan2 : numScan (numPrefix (numState '0' ('x' :: d :: ds))).1 false
        (numPrefix (numState '0' ('x' :: d :: ds))).2.1
        (numPrefix (numState '0' ('x' :: d :: ds))).2.2 =
        (.ok (.hexInt, (d :: ds).map Char.toNat), l2) := hscan
    exact read_fresh_number '0' ('x' :: d :: ds) (by decide)
      (tryReadNumber_eval _ ((by decide : isDigitOfBase '0' TokenTag.decInt = true)) _ _ _
        hscan2)
  · intro d ds hall
    have hd := hall d (by simp)
    by_cases h0 : d = '0'
    · subst h0
      cases ds with
      | nil =>
        have hnum : tryReadNumber (numState '0' []) =
            (.ok ⟨.decInt, ⟨"f", 0, 0⟩, [48]⟩,
              ⟨⟨"f", 0, 0⟩, bumpLoc ⟨"f", 0, 0⟩ '0', char0, true, [], none, 0⟩) := by
          simp [tryReadNumber, numState, numPrefix, numScan, digitsLoop, advanceRune,
            isDigitOfBase, char0, goWriteRune, strB, bumpLoc]
        exact read_fresh_number '0' [] (by decide) hnum
      | cons c1 cs =>
        obtain ⟨hb, ho, hx, hdot⟩ := decDigit_not_prefix c1 (hall c1 (by simp))
        obtain ⟨l2, hscan⟩ := numScan_consume_all .decInt false [48]
          (advanceRune (numState '0' (c1 :: cs)))
          (hall c1 (by simp))
          (fun c hc => hall c (List.mem_cons_of_mem '0' (List.mem_cons_of_mem c1 hc)))
        have hpre : numPrefix (numState '0' (c1 :: cs)) =
            (.decInt, [48], advanceRune (numState '0' (c1 :: cs))) := by
          simp only [numState, numPrefix, advanceRune]
          rw [if_neg hb, if_neg ho, if_neg hx, if_neg hdot]
          simp
        have hscan2 : numScan (numPrefix (numState '0' (c1 :: cs))).1 false
            (numPrefix (numState '0' (c1 :: cs))).2.1
            (numPrefix (numState '0' (c1 :: cs))).2.2 =
            (.ok (.decInt, ('0' :: c1 :: cs).map Char.toNat), l2) := by
          rw [hpre]
          exact hscan
        exact read_fresh_number '0' (c1 :: cs) (by decide)
          (tryReadNumber_eval _ ((by decide : isDigitOfBase '0' TokenTag.decInt = true)) _ _ _
        hscan2)
    · obtain ⟨l2, hscan⟩ := numScan_consume_all .decInt false [] (numState d ds)
        hd (fun c hc => hall c (List.mem_cons_of_mem d hc))
      have hpre : numPrefix (numState d ds) = (.decInt, [], numState d ds) := by
        rw [numPrefix, if_neg h0]
      have hscan2 : numScan (numPrefix (numState d ds)).1 false
          (numPrefix (numState d ds)).2.1 (numPrefix (numState d ds)).2.2 =
          (.ok (.decInt, (d :: ds).map Char.toNat), l2) := by
        rw [hpre]
        exact hscan
      exact read_fresh_number d ds hd (tryReadNumber_eval _ hd _ _ _ hscan2)

/-- Witness for claim C2 on the four radixes. -/
theorem claim_C2_witness :
    (Lexer.read (mkLexer "f" ['0', 'b', '1', '0'])).1 = .ok ⟨.binInt, ⟨"f", 0, 0⟩, [49, 48]⟩
  ∧ (Lexer.read (mkLexer "f" ['0', 'o', '7'])).1 = .ok ⟨.octInt, ⟨"f", 0, 0⟩, [55]⟩
  ∧ (Lexer.read (mkLexer "f" ['0', 'x', '1', 'f'])).1 = .ok ⟨.hexInt, ⟨"f", 0, 0⟩, [49, 102]⟩
  ∧ (Lexer.read (mkLexer "f" ['4', '2'])).1 = .ok ⟨.decInt, ⟨"f", 0, 0⟩, [52, 50]⟩ :=
  ⟨claim_C2.1 '1' ['0'] (by decide), claim_C2.2.1 '7' [] (by decide),
   claim_C2.2.2.1 '1' ['f'] (by decide), claim_C2.2.2.2 '4' ['2'] (by decide)⟩

theorem numScan_bare (tag : TokenTag) (l : Lexer)
    (hnd : isDigitOfBase l.current tag = false) (hdot : l.current ≠ '.')
    (hexp : ¬(l.current = 'e' ∧ (tag = TokenTag.decInt ∨ tag = TokenTag.float))) :
    numScan tag false [] l = (.ok (tag, []), l) := by
  have hd : digitsLoop tag l [] = (l, []) := by
    rw [digitsLoop, dif_neg (by simp [hnd])]
  rw [numScan]
  simp only [hd]
  rw [dif_neg (fun h => hdot h)]
  rw [dif_neg (fun h => hexp ⟨h.1, h.2.2⟩)]

/-- Claim C10: a bare radix prefix is not rejected: when the rune after
`0b`, `0o` or `0x` is not a digit of that base and not a decimal point,
`Read` succeeds with a BinInt, OctInt or HexInt token whose value is
empty, rather than any malformed-literal error. -/
theorem claim_C10 (c : Char) (cs : List Char) :
    (isDigitOfBase c .binInt = false → c ≠ '.' →
      (Lexer.read (mkLexer "f" ('0' :: 'b' :: c :: cs))).1 =
        .ok ⟨.binInt, ⟨"f", 0, 0⟩, []⟩)
  ∧ (isDigitOfBase c .octInt = false → c ≠ '.' →
      (Lexer.read (mkLexer "f" ('0' :: 'o' :: c :: cs))).1 =
        .ok ⟨.octInt, ⟨"f", 0, 0⟩, []⟩)
  ∧ (isDigitOfBase c .hexInt = false → c ≠ '.' →
      (Lexer.read (mkLexer "f" ('0' :: 'x' :: c :: cs))).1 =
        .ok ⟨.hexInt, ⟨"f", 0, 0⟩, []⟩) := by
  refine ⟨?_, ?_, ?_⟩
  · intro hnd hdot
    have hs := numScan_bare .binInt
      (advanceRune (advanceRune (numState '0' ('b' :: c :: cs))))
      hnd hdot (by rintro ⟨_, h | h⟩ <;> exact absurd h (by decide))
    have hscan2 : numScan (numPrefix (numState '0' ('b' :: c :: cs))).1 false
        (numPrefix (numState '0' ('b' :: c :: cs))).2.1
        (numPrefix (numState '0' ('b' :: c :: cs))).2.2 =
        (.ok (.binInt, []), advanceRune (advanceRune (numState '0' ('b' :: c :: cs)))) := hs
    exact read_fresh_number '0' ('b' :: c :: cs) (by decide)
      (tryReadNumber_eval _ ((by decide : isDigitOfBase '0' TokenTag.decInt = true)) _ _ _
        hscan2)
  · intro hnd hdot
    have hs := numScan_bare .octInt
      (advanceRune (advanceRune (numState '0' ('o' :: c :: cs))))
      hnd hdot (by rintro ⟨_, h | h⟩ <;> exact absurd h (by decide))
    have hscan2 : numScan (numPrefix (numState '0' ('o' :: c :: cs))).1 false
        (numPrefix (numState '0' ('o' :: c :: cs))).2.1
        (numPrefix (numState '0' ('o' :: c :: cs))).2.2 =
        (.ok (.octInt, []), advanceRune (advanceRune (numState '0' ('o' :: c :: cs)))) := hs
    exact read_fresh_number '0' ('o' :: c :: cs) (by decide)
      (tryReadNumber_eval _ ((by decide : isDigitOfBase '0' TokenTag.decInt = true)) _ _ _
        hscan2)
  · intro hnd hdot
    have hs := numScan_bare .hexInt
      (advanceRune (advanceRune (numState '0' ('x' :: c :: cs))))
      hnd hdot (by rintro ⟨_, h | h⟩ <;> exact absurd h (by decide))
    have hscan2 : numScan (numPrefix (numState '0' ('x' :: c :: cs))).1 false
        (numPrefix (numState '0' ('x' :: c :: cs))).2.1
        (numPrefix (numState '0' ('x' :: c :: cs))).2.2 =
        (.ok (.hexInt, []), advanceRune (advanceRune (numState '0' ('x' :: c :: cs)))) := hs
    exact read_fresh_number '0' ('x' :: c :: cs) (by decide)
      (tryReadNumber_eval _ ((by decide : isDigitOfBase '0' TokenTag.decInt = true)) _ _ _
        hscan2)

/-- Witness for claim C10 on the three radix prefixes. -/
theorem claim_C10_witness :
    (Lexer.read (mkLexer "f" ['0', 'b', 'z'])).1 = .ok ⟨.binInt, ⟨"f", 0, 0⟩, []⟩
  ∧ (Lexer.read (mkLexer "f" ['0', 'o', '9'])).1 = .ok ⟨.octInt, ⟨"f", 0, 0⟩, []⟩
  ∧ (Lexer.read (mkLexer "f" ['0', 'x', 'g'])).1 = .ok ⟨.hexInt, ⟨"f", 0, 0⟩, []⟩ :=
  ⟨(claim_C10 'z' []).1 (by decide) (by decide),
   (claim_C10 '9' []).2.1 (by decide) (by decide),
   (claim_C10 'g' []).2.2 (by decide) (by decide)⟩

set_option maxHeartbeats 1000000 in
/-- Claim C9: a comment consumes its terminating newline: reading `#`
followed by newline-free content and a newline yields one Comment token
whose value holds the comment text without the newline, and the lexer
resumes directly after the newline, so no EOL token is produced for it; on
`#c\nx` the second read delivers the word `x`, not an EOL. -/
theorem claim_C9 :
    (∀ cs rest, (∀ c ∈ cs, c ≠ '\n' ∧ c ≠ char0) →
      ∃ l2, Lexer.read (mkLexer "f" ('#' :: (cs ++ '\n' :: rest))) =
        (.ok ⟨.comment, ⟨"f", 0, 0⟩, utf8Bytes ('#' :: cs)⟩, l2)
      ∧ l2.current = rest.headD char0 ∧ l2.input = rest.tail)
  ∧ (Lexer.read (Lexer.read (mkLexer "f" ['#', 'c', '\n', 'x'])).2).1 =
      .ok ⟨.word, ⟨"f", 1, 1⟩, [120]⟩ := by
  constructor
  · intro cs rest hall
    obtain ⟨loc, hcl⟩ := commentLoop_consume rest cs (hashState (cs ++ '\n' :: rest)) []
      rfl hall ((by decide : ('#' : Char) ≠ '\n')) ((by decide : ('#' : Char) ≠ char0))
    have htc : tryReadComment (hashState (cs ++ '\n' :: rest)) =
        (.ok ⟨.comment, ⟨"f", 0, 0⟩, utf8Bytes ('#' :: cs)⟩,
          advanceRune { hashState (cs ++ '\n' :: rest) with
            current := '\n', input := rest, endLoc := loc }) := by
      rw [tryReadComment,
        if_pos (show (hashState (cs ++ '\n' :: rest)).current = '#' from rfl)]
      simp only [hcl]
      simp [hashState]
    rw [read_fresh_comment, htc]
    refine ⟨_, rfl, ?_, ?_⟩ <;> cases rest <;> rfl
  · simp [Lexer.read, readClassify, tryReadEOF, tryReadEOL, tryReadComment, tryReadNumber,
      tryReadString, tryReadWord, tryReadPunct, skipSpaces, eolLoop, commentLoop, digitsLoop,
      numScan, numPrefix, stringLoop, wordLoop, punctLoop, advanceRune, bumpLoc, bumpStart,
      mkLexer, isDigitOfBase, goIsSpace, goIsLetter, goIsDigit, goWriteRune, utf8Enc, char0,
      strB, punctuations, GoErr.is, Lexer.Unread]

/-- Witness for claim C9 on the comment line `#a` followed by `b`. -/
theorem claim_C9_witness :
    ∃ l2, Lexer.read (mkLexer "f" ['#', 'a', '\n', 'b']) =
      (.ok ⟨.comment, ⟨"f", 0, 0⟩, utf8Bytes ['#', 'a']⟩, l2)
    ∧ l2.current = 'b' ∧ l2.input = [] :=
  claim_C9.1 ['a'] ['b'] (by decide)

set_option maxHeartbeats 1000000 in
/-- Claim C3 counterexample: the scanner accepts only a lowercase `e` as
the exponent marker: on `1.0E5` the first read stops before the uppercase
`E` and returns Float `1.0`, and the next read returns the word `E5`, so
`1.0E5` does not scan as a single Float token. -/
theorem claim_C3_counterexample :
    (Lexer.read (mkLexer "f" "1.0E5".toList)).1 =
      .ok ⟨.float, ⟨"f", 0, 0⟩, strB "1.0"⟩
  ∧ (Lexer.read (Lexer.read (mkLexer "f" "1.0E5".toList)).2).1 =
      .ok ⟨.word, ⟨"f", 0, 4⟩, strB "E5"⟩ := by
  constructor <;>
    simp [Lexer.read, readClassify, tryReadEOF, tryReadEOL, tryReadComment, tryReadNumber,
      tryReadString, tryReadWord, tryReadPunct, skipSpaces, eolLoop, commentLoop, digitsLoop,
      numScan, numPrefix, stringLoop, wordLoop, punctLoop, advanceRune, bumpLoc, bumpStart,
      mkLexer, isDigitOfBase, goIsSpace, goIsLetter, goIsDigit, goWriteRune, utf8Enc, char0,
      strB, punctuations, GoErr.is, Lexer.Unread]

set_option maxHeartbeats 2000000 in
/-- Claim C3, amended: the exponent marker is the lowercase `e` only (see
the counterexample for `E`), accepted at most once, only in decimal-integer
or float mode, optionally followed by one `+` or `-` sign, and at least one
decimal digit must follow or Read fails with the malformed-float-literal
error: `1.0e5` and `1.0e+5` scan as single Float tokens, `1.0e` and
`1.0e+` fail with malformed-float, `1e2e3` scans as DecInt `1e2` followed
by the word `e3` (a second marker is not accepted), and `0o1e2` scans as
OctInt `1` (no exponent outside decimal/float mode). -/
theorem claim_C3 :
    (Lexer.read (mkLexer "f" "1.0e5".toList)).1 =
      .ok ⟨.float, ⟨"f", 0, 0⟩, strB "1.0e5"⟩
  ∧ (Lexer.read (mkLexer "f" "1.0e+5".toList)).1 =
      .ok ⟨.float, ⟨"f", 0, 0⟩, strB "1.0e+5"⟩
  ∧ (Lexer.read (mkLexer "f" "1.0e".toList)).1 =
      .error (.sentinel .malformedFloatLiteral)
  ∧ (Lexer.read (mkLexer "f" "1.0e+".toList)).1 =
      .error (.sentinel .malformedFloatLiteral)
  ∧ (Lexer.read (mkLexer "f" "1e2e3".toList)).1 =
      .ok ⟨.decInt, ⟨"f", 0, 0⟩, strB "1e2"⟩
  ∧ (Lexer.read (Lexer.read (mkLexer "f" "1e2e3".toList)).2).1 =
      .ok ⟨.word, ⟨"f", 0, 4⟩, strB "e3"⟩
  ∧ (Lexer.read (mkLexer "f" "0o1e2".toList)).1 =
      .ok ⟨.octInt, ⟨"f", 0, 0⟩, strB "1"⟩ := by
  refine ⟨?_, ?_, ?_, ?_, ?_, ?_, ?_⟩ <;>
    simp [Lexer.read, readClassify, tryReadEOF, tryReadEOL, tryReadComment, tryReadNumber,
      tryReadString, tryReadWord, tryReadPunct, skipSpaces, eolLoop, commentLoop, digitsLoop,
      numScan, numPrefix, stringLoop, wordLoop, punctLoop, advanceRune, bumpLoc, bumpStart,
      mkLexer, isDigitOfBase, goIsSpace, goIsLetter, goIsDigit, goWriteRune, utf8Enc, char0,
      strB, punctuations, GoErr.is, Lexer.Unread]

set_option maxHeartbeats 1000000 in
/-- Claim C5 counterexample: a reachable unterminated string literal on
which Read fails with a different error kind: the input consisting of a
quote and a lone backslash reaches the end of input without a closing
quote, yet Read reports malformed-escape-sequence, which under `errors.Is`
does not match the unterminated-string-literal kind. -/
theorem claim_C5_counterexample :
    (Lexer.read (mkLexer "f" ['"', '\\'])).1 =
      .error (.sentinel .malformedEscapeSequence)
  ∧ (GoErr.sentinel BaseErr.malformedEscapeSequence).is
      .unterminatedStringLiteral = false := by
  refine ⟨?_, by decide⟩
  simp [Lexer.read, readClassify, tryReadEOF, tryReadEOL, tryReadComment, tryReadNumber,
    tryReadString, tryReadWord, tryReadPunct, skipSpaces, eolLoop, commentLoop, digitsLoop,
    numScan, numPrefix, stringLoop, wordLoop, punctLoop, advanceRune, bumpLoc, bumpStart,
    mkLexer, isDigitOfBase, goIsSpace, goIsLetter, goIsDigit, goWriteRune, utf8Enc, char0,
    strB, punctuations, GoErr.is, Lexer.Unread, decodeEscapeSequence, decodeHexEscape,
    simpleEscape, escTakeNext, hexRun, hexVal, parseHexNat, goWriteRuneInt, goRuneOfInt64]

/-- Claim C5, amended: for escape-free content, a string literal whose
opening quote is not followed by a closing `"` before the end of input or
before a newline makes Read fail with the unterminated-string-literal
error (a failing escape sequence instead reports malformed-escape, see the
counterexample), and that kind is distinguishable from the other lexical
error kinds under `errors.Is`. -/
theorem claim_C5 :
    (∀ cs, (∀ c ∈ cs, c ≠ '"' ∧ c ≠ '\\' ∧ c ≠ '\n' ∧ c ≠ char0) →
      (Lexer.read (mkLexer "f" ('"' :: cs))).1 =
        .error (.sentinel .unterminatedStringLiteral))
  ∧ (∀ cs rest, (∀ c ∈ cs, c ≠ '"' ∧ c ≠ '\\' ∧ c ≠ '\n' ∧ c ≠ char0) →
      (Lexer.read (mkLexer "f" ('"' :: (cs ++ '\n' :: rest)))).1 =
        .error (.sentinel .unterminatedStringLiteral))
  ∧ (GoErr.sentinel BaseErr.unterminatedStringLiteral).is
      .unterminatedStringLiteral = true
  ∧ (GoErr.sentinel BaseErr.unterminatedStringLiteral).is
      .malformedEscapeSequence = false
  ∧ (GoErr.sentinel BaseErr.unterminatedStringLiteral).is
      .malformedFloatLiteral = false
  ∧ (GoErr.sentinel BaseErr.unterminatedStringLiteral).is
      .invalidCharacter = false := by
  refine ⟨?_, ?_, by decide, by decide, by decide, by decide⟩
  · intro cs hall
    obtain ⟨l2, v2, hsl, h0⟩ := stringLoop_plain_eof cs (quoteState cs) [] rfl hall
      ((by decide : ('"' : Char) ≠ '\n')) ((by decide : ('"' : Char) ≠ char0))
    rw [read_at_quote, tryReadString,
      if_pos (show (quoteState cs).current = '"' from rfl), hsl]
    dsimp only []
    rw [if_neg (by rw [h0]; decide)]
  · intro cs rest hall
    obtain ⟨l2, v2, hsl, h0⟩ := stringLoop_plain_nl cs (quoteState (cs ++ '\n' :: rest)) []
      rest rfl hall
      ((by decide : ('"' : Char) ≠ '\n')) ((by decide : ('"' : Char) ≠ char0))
    rw [read_at_quote, tryReadString,
      if_pos (show (quoteState (cs ++ '\n' :: rest)).current = '"' from rfl), hsl]
    dsimp only []
    rw [if_neg (by rw [h0]; decide)]

/-- Witness for the amended claim C5: an unterminated literal reaching the
end of input and one reaching a newline. -/
theorem claim_C5_witness :
    (Lexer.read (mkLexer "f" ['"', 'a'])).1 =
      .error (.sentinel .unterminatedStringLiteral)
  ∧ (Lexer.read (mkLexer "f" ['"', 'a', '\n', 'b'])).1 =
      .error (.sentinel .unterminatedStringLiteral) :=
  ⟨claim_C5.1 ['a'] (by decide), claim_C5.2.1 ['a'] ['b'] (by decide)⟩

theorem parseHexNat_aux (ds : List Char) :
    ∀ a : Nat, List.foldl (fun a c => a * 16 + hexVal c) a ds < (a + 1) * 16 ^ ds.length := by
  induction ds with
  | nil => intro a; simp
  | cons c cs ih =>
    intro a
    have h1 := ih (a * 16 + hexVal c)
    have h2 : hexVal c < 16 := hexVal_lt_16 c
    calc List.foldl (fun a c => a * 16 + hexVal c) a (c :: cs)
        = List.foldl (fun a c => a * 16 + hexVal c) (a * 16 + hexVal c) cs := by
          simp [List.foldl]
      _ < (a * 16 + hexVal c + 1) * 16 ^ cs.length := h1
      _ ≤ ((a + 1) * 16) * 16 ^ cs.length := Nat.mul_le_mul_right _ (by omega)
      _ = (a + 1) * 16 ^ (c :: cs).length := by
          rw [List.length_cons, pow_succ]
          ring

theorem parseHexNat_lt (ds : List Char) : parseHexNat ds < 16 ^ ds.length := by
  have h := parseHexNat_aux ds 0
  simpa [parseHexNat] using h

/-- Claim C4: escape decoding in string literals: every character in the
simple-escape table (the letters a b f n r t v and the characters
backslash, single quote, double quote) decodes to its byte; `x` consumes
exactly 2 hex digits and appends one raw byte; `u` consumes exactly 4 hex
digits and `U` exactly 8, each appending one UTF-8 encoded code point (for
code points that are valid, non-surrogate runes); any other escape
character, and any hex run that stops early on a non-hex character, makes
Read fail with the malformed-escape-sequence error. -/
theorem claim_C4 :
    (∀ ec b, simpleEscape ec = some b →
      (Lexer.read (mkLexer "f" ['"', '\\', ec, '"'])).1 =
        .ok ⟨.string, ⟨"f", 0, 0⟩, [b]⟩)
  ∧ (∀ h1 h2, isDigitOfBase h1 .hexInt = true → isDigitOfBase h2 .hexInt = true →
      (Lexer.read (mkLexer "f" ['"', '\\', 'x', h1, h2, '"'])).1 =
        .ok ⟨.string, ⟨"f", 0, 0⟩, [16 * hexVal h1 + hexVal h2]⟩)
  ∧ (∀ h1 h2 h3 h4, (∀ c ∈ [h1, h2, h3, h4], isDigitOfBase c .hexInt = true) →
      (parseHexNat [h1, h2, h3, h4] < 0xD800 ∨ 0xDFFF < parseHexNat [h1, h2, h3, h4]) →
      (Lexer.read (mkLexer "f" ['"', '\\', 'u', h1, h2, h3, h4, '"'])).1 =
        .ok ⟨.string, ⟨"f", 0, 0⟩, utf8Enc (parseHexNat [h1, h2, h3, h4])⟩)
  ∧ (∀ h1 h2 h3 h4 h5 h6 h7 h8,
      (∀ c ∈ [h1, h2, h3, h4, h5, h6, h7, h8], isDigitOfBase c .hexInt = true) →
      parseHexNat [h1, h2, h3, h4, h5, h6, h7, h8] ≤ 0x10FFFF →
      (parseHexNat [h1, h2, h3, h4, h5, h6, h7, h8] < 0xD800 ∨
        0xDFFF < parseHexNat [h1, h2, h3, h4, h5, h6, h7, h8]) →
      (Lexer.read (mkLexer "f"
          ['"', '\\', 'U', h1, h2, h3, h4, h5, h6, h7, h8, '"'])).1 =
        .ok ⟨.string, ⟨"f", 0, 0⟩,
          utf8Enc (parseHexNat [h1, h2, h3, h4, h5, h6, h7, h8])⟩)
  ∧ (∀ ec rest, simpleEscape ec = none → escTakeNext ec = 0 →
      (Lexer.read (mkLexer "f" ('"' :: '\\' :: ec :: rest))).1 =
        .error (.sentinel .malformedEscapeSequence))
  ∧ (∀ c cs, isDigitOfBase c .hexInt = false →
      (Lexer.read (mkLexer "f" ('"' :: '\\' :: 'x' :: c :: cs))).1 =
        .error (.sentinel .malformedEscapeSequence))
  ∧ (∀ h1 c cs, isDigitOfBase h1 .hexInt = true → isDigitOfBase c .hexInt = false →
      (Lexer.read (mkLexer "f" ('"' :: '\\' :: 'x' :: h1 :: c :: cs))).1 =
        .error (.sentinel .malformedEscapeSequence)) := by
  refine ⟨?_, ?_, ?_, ?_, ?_, ?_, ?_⟩
  · intro ec b hsimple
    have hdec : decodeEscapeSequence (escState [ec, '"']) [] =
        (.ok [b], advanceRune (advanceRune (escState [ec, '"']))) := by
      simp [decodeEscapeSequence, escState, advanceRune, hsimple, bumpLoc]
    exact read_quote_escape_ok [ec, '"'] [b] _ hdec rfl
  · intro h1 h2 hx1 hx2
    obtain ⟨l2, hdec, hcur, hin2⟩ := decodeEscape_hex_all 'x' rfl [h1, h2] ['"'] rfl
      (by simp) (by simp [hx1, hx2]) [] (escState ['x', h1, h2, '"']) rfl
    rw [if_pos (show escTakeNext 'x' = 2 from rfl)] at hdec
    have hv : parseHexNat [h1, h2] % 256 = 16 * hexVal h1 + hexVal h2 := by
      have g1 := hexVal_lt_16 h1
      have g2 := hexVal_lt_16 h2
      rw [parseHexNat_pair]
      exact Nat.mod_eq_of_lt (by omega)
    rw [hv] at hdec
    exact read_quote_escape_ok ['x', h1, h2, '"'] _ _ hdec hcur
  · intro h1 h2 h3 h4 hall hsur
    obtain ⟨l2, hdec, hcur, hin2⟩ := decodeEscape_hex_all 'u' rfl [h1, h2, h3, h4] ['"']
      rfl (by simp) hall [] (escState ['u', h1, h2, h3, h4, '"']) rfl
    rw [if_neg (show ¬escTakeNext 'u' = 2 by decide)] at hdec
    have hlt : parseHexNat [h1, h2, h3, h4] < 65536 := by
      have h := parseHexNat_lt [h1, h2, h3, h4]
      norm_num at h
      exact h
    have hg : goRuneOfInt64 (parseHexNat [h1, h2, h3, h4]) =
        (parseHexNat [h1, h2, h3, h4] : Int) := by
      rw [goRuneOfInt64,
        Nat.mod_eq_of_lt (show parseHexNat [h1, h2, h3, h4] < 4294967296 by omega),
        if_pos (show parseHexNat [h1, h2, h3, h4] < 2147483648 by omega)]
      omega
    have hw : goWriteRuneInt [] ((parseHexNat [h1, h2, h3, h4] : Nat) : Int) =
        utf8Enc (parseHexNat [h1, h2, h3, h4]) := by
      rw [goWriteRuneInt, if_neg (by omega)]
      simp
    rw [hg, hw] at hdec
    exact read_quote_escape_ok ['u', h1, h2, h3, h4, '"'] _ _ hdec hcur
  · intro h1 h2 h3 h4 h5 h6 h7 h8 hall hle hsur
    obtain ⟨l2, hdec, hcur, hin2⟩ := decodeEscape_hex_all 'U' rfl
      [h1, h2, h3, h4, h5, h6, h7, h8] ['"'] rfl (by simp) hall []
      (escState ['U', h1, h2, h3, h4, h5, h6, h7, h8, '"']) rfl
    rw [if_neg (show ¬escTakeNext 'U' = 2 by decide)] at hdec
    have hlt : parseHexNat [h1, h2, h3, h4, h5, h6, h7, h8] < 4294967296 := by
      have h := parseHexNat_lt [h1, h2, h3, h4, h5, h6, h7, h8]
      norm_num at h
      exact h
    have hg : goRuneOfInt64 (parseHexNat [h1, h2, h3, h4, h5, h6, h7, h8]) =
        (parseHexNat [h1, h2, h3, h4, h5, h6, h7, h8] : Int) := by
      rw [goRuneOfInt64,
        Nat.mod_eq_of_lt (show parseHexNat [h1, h2, h3, h4, h5, h6, h7, h8] < 4294967296
          by omega),
        if_pos (show parseHexNat [h1, h2, h3, h4, h5, h6, h7, h8] < 2147483648 by omega)]
      omega
    have hw : goWriteRuneInt [] ((parseHexNat [h1, h2, h3, h4, h5, h6, h7, h8] : Nat) : Int) =
        utf8Enc (parseHexNat [h1, h2, h3, h4, h5, h6, h7, h8]) := by
      rw [goWriteRuneInt, if_neg (by omega)]
      simp
    rw [hg, hw] at hdec
    exact read_quote_escape_ok ['U', h1, h2, h3, h4, h5, h6, h7, h8, '"'] _ _ hdec hcur
  · intro ec rest hsimple htn
    apply read_quote_escape_error (ec :: rest)
    simp [decodeEscapeSequence, escState, advanceRune, hsimple, htn]
  · intro c cs hc
    apply read_quote_escape_error ('x' :: c :: cs)
    simp [decodeEscapeSequence, escState, advanceRune, simpleEscape, escTakeNext,
      decodeHexEscape, hexRun, hc]
  · intro h1 c cs hx1 hc
    apply read_quote_escape_error ('x' :: h1 :: c :: cs)
    simp [decodeEscapeSequence, escState, advanceRune, simpleEscape, escTakeNext,
      decodeHexEscape, hexRun, hx1, hc]

/-- Witness for claim C4 on the specification's concrete escape instances:
a tab, one raw byte, a 3-byte and a 4-byte code point, an unknown escape
letter and an invalid hex run. -/
theorem claim_C4_witness :
    (Lexer.read (mkLexer "f" ['"', '\\', 't', '"'])).1 =
      .ok ⟨.string, ⟨"f", 0, 0⟩, [9]⟩
  ∧ (Lexer.read (mkLexer "f" ['"', '\\', 'x', 'C', '0', '"'])).1 =
      .ok ⟨.string, ⟨"f", 0, 0⟩, [192]⟩
  ∧ (Lexer.read (mkLexer "f" ['"', '\\', 'u', '3', '0', '7', '1', '"'])).1 =
      .ok ⟨.string, ⟨"f", 0, 0⟩, [227, 129, 177]⟩
  ∧ (Lexer.read (mkLexer "f"
      ['"', '\\', 'U', '0', '0', '0', '1', 'F', '6', '1', '7', '"'])).1 =
      .ok ⟨.string, ⟨"f", 0, 0⟩, [240, 159, 152, 151]⟩
  ∧ (Lexer.read (mkLexer "f" ['"', '\\', 'M', '"'])).1 =
      .error (.sentinel .malformedEscapeSequence)
  ∧ (Lexer.read (mkLexer "f" ['"', '\\', 'x', 'N', 'O', '"'])).1 =
      .error (.sentinel .malformedEscapeSequence) :=
  ⟨claim_C4.1 't' 9 (by decide),
   claim_C4.2.1 'C' '0' (by decide) (by decide),
   claim_C4.2.2.1 '3' '0' '7' '1' (by decide) (by decide),
   claim_C4.2.2.2.1 '0' '0' '0' '1' 'F' '6' '1' '7' (by decide) (by decide) (by decide),
   claim_C4.2.2.2.2.1 'M' ['"'] (by decide) (by decide),
   claim_C4.2.2.2.2.2.1 'N' ['O', '"'] (by decide)⟩

end SimpleSchema
